import Mathlib

/-!
Verification of the consul-awx inventory builder (`consul_awx.py`).

The core of the program is embedded shallowly:
* Python dicts become association lists (`Dict α`), preserving insertion
  order, which is exactly Python's dict iteration order.
* The catalog client is externalised: the build takes the node list and,
  paired with each node, the service map that `get_node_services` would
  return for it.
* Exceptions (`KeyError` on a missing tagged address, `KeyError` when a
  group name sanitizes to `"_meta"`, whose entry lacks a `"hosts"` key)
  become `Except BuildError`.
* Python string primitives are modelled on ASCII: `str.isdigit` as
  `Char.isDigit`, `str.lower` as `Char.toLower`, `str.strip` as dropping
  `Char.isWhitespace` at both ends.  All constants the code compares
  against (`"true"`, `"false"`, `"1"`, ...) are ASCII, so the model agrees
  with CPython on all ASCII inputs.
-/

/-- Python dict with string keys, as an insertion-ordered association list. -/
abbrev Dict (α : Type) := List (String × α)

/-- `d[k]` lookup returning `none` instead of raising `KeyError`. -/
def dictGet? {α : Type} : Dict α → String → Option α
  | [], _ => none
  | p :: ps, k => if p.1 = k then some p.2 else dictGet? ps k

/-- `d[k] = v`: update in place when the key exists, else append. -/
def dictSet {α : Type} : Dict α → String → α → Dict α
  | [], k, v => [(k, v)]
  | p :: ps, k, v => if p.1 = k then (k, v) :: ps else p :: dictSet ps k v

/-- A JSON-ish Python value as stored into hostvars by `get_node_vars`. -/
inductive PyVal : Type where
  | str (s : String)
  | int (n : Nat)
  | bool (b : Bool)
deriving DecidableEq, Repr

/-- Python `str.strip()` (ASCII whitespace). -/
def pyStrip (s : String) : String :=
  ⟨((s.data.dropWhile Char.isWhitespace).reverse.dropWhile Char.isWhitespace).reverse⟩

/-- Python `str.lower()` (ASCII model). -/
def pyLower (s : String) : String :=
  ⟨s.data.map Char.toLower⟩

/-- Python `str.isdigit()` (ASCII model): non-empty and all digits. -/
def pyIsdigit (s : String) : Bool :=
  !s.data.isEmpty && s.data.all Char.isDigit

/-- Python `int(s)` on an all-digit string. -/
def pyInt (s : String) : Nat :=
  s.data.foldl (fun n c => 10 * n + (c.toNat - 48)) 0

/-- The character substitution of `sanitize`: `[^A-Za-z0-9]` → `_`. -/
def sanChar (c : Char) : Char :=
  if c.isAlphanum then c else '_'

/-- `sanitize` (consul_awx.py lines 129-134): `re.sub(r"[^A-Za-z0-9]", "_", string)`. -/
def sanitize (s : String) : String :=
  ⟨s.data.map sanChar⟩

/-- `str2bool` (lines 231-239) on a string argument; `none` models the
`ValueError` raised on any other value. -/
def str2bool? (v : String) : Option Bool :=
  if ["true", "1", "yes"].contains (pyLower v) then some true
  else if ["false", "0", "no"].contains (pyLower v) then some false
  else none

/-- A catalog node as consumed by the builder: `node["Node"]`,
`node["Datacenter"]`, `node["TaggedAddresses"]`, `node.get("Meta")`.
`meta = none` covers both an absent `"Meta"` key and an explicit `null`
(the code normalises both to `{}`). -/
structure Node : Type where
  name : String
  datacenter : String
  taggedAddresses : Dict String
  meta : Option (Dict String)
deriving DecidableEq, Repr

/-- `node.get("Meta", {})` followed by the `is None` normalisation
(lines 63-65 and 139-141). -/
def Node.metaD (n : Node) : Dict String := n.meta.getD []

/-- Automatic coercion of a stripped metadata value
(lines 148-155): digits → int, `true`/`false` (case-insensitive) → bool,
else the (stripped) string. -/
def coerceMetaValue (v : String) : PyVal :=
  if pyIsdigit v then .int (pyInt v)
  else if pyLower v = "true" then .bool true
  else if pyLower v = "false" then .bool false
  else .str v

/-- One iteration of the metadata loop of `get_node_vars` (lines 142-155):
skip empty values, else store the coerced stripped value. -/
def metaVarsStep (vars : Dict PyVal) (kv : String × String) : Dict PyVal :=
  if kv.2 = "" then vars
  else dictSet vars kv.1 (coerceMetaValue (pyStrip kv.2))

/-- `get_node_vars` (lines 137-157).  `none` models the `KeyError` raised
when the node lacks the requested tagged address. -/
def get_node_vars (node : Node) (tagged_address : String) : Option (Dict PyVal) :=
  match dictGet? node.taggedAddresses tagged_address with
  | none => none
  | some addr =>
    some (node.metaD.foldl metaVarsStep
      [("ansible_host", .str addr), ("datacenter", .str node.datacenter)])

/-- Group name derived from one metadata pair (lines 66-86): `none` when
the stripped value str2bool's to `False` (the pair yields no group);
the key alone when it str2bool's to `True`; otherwise `f"{key}_{value}"`
with the original, unstripped value. -/
def metaGroupName (key value : String) : Option String :=
  match str2bool? (pyStrip value) with
  | some false => none
  | some true => some key
  | none => some (key ++ "_" ++ value)

/-- One inventory group: `{"hosts": [...], "children": [...]}`. -/
structure InvGroup : Type where
  hosts : List String
  children : List String
deriving DecidableEq, Repr

/-- The inventory: `_meta.hostvars` plus the ordered dict of groups
(`all` and `ungrouped` included; the `_meta` key is kept apart since its
value has a different shape). -/
structure Inventory : Type where
  hostvars : Dict (Dict PyVal)
  groups : Dict InvGroup
deriving DecidableEq, Repr

/-- `EMPTY_INVENTORY` (lines 30-34). -/
def emptyInventory : Inventory :=
  { hostvars := [],
    groups := [("all", ⟨[], ["ungrouped"]⟩), ("ungrouped", ⟨[], []⟩)] }

/-- The two `KeyError`s the build can raise: a node without the requested
tagged address (line 138), and `add_to_group` on a name that sanitizes to
`"_meta"` (line 110, where `inventory["_meta"]` has no `"hosts"` key). -/
inductive BuildError : Type where
  | missingAddress (node tagged_address : String)
  | metaGroupClash (host : String)
deriving DecidableEq, Repr

/-- `add_to_group` (lines 106-110) acting on the groups dict: sanitize the
name, create the group if absent, append the host.  The untouched
`_meta`/hostvars component is threaded separately by the callers. -/
def add_to_group (gs : Dict InvGroup) (group host : String) : Except BuildError (Dict InvGroup) :=
  if sanitize group = "_meta" then .error (.metaGroupClash host)
  else
    .ok ((if (dictGet? gs (sanitize group)).isSome then gs
          else gs ++ [(sanitize group, ⟨[], []⟩)]).map
      (fun p =>
        if p.1 = sanitize group then (p.1, ⟨p.2.hosts ++ [host], p.2.children⟩)
        else p))

/-- Lines 95-97: append `child` to `inventory[service]["children"]` unless
already present.  The callers only invoke it with `service` a key of `gs`. -/
def registerChild (gs : Dict InvGroup) (service child : String) : Dict InvGroup :=
  gs.map (fun p =>
    if p.1 = service then
      (p.1, if child ∈ p.2.children then p.2
            else ⟨p.2.hosts, p.2.children ++ [child]⟩)
    else p)

/-- Lines 90-97 for one service `(name, data["Tags"])`. -/
def processService (host : String) (gs : Dict InvGroup) (svc : String × List String) :
    Except BuildError (Dict InvGroup) := do
  let service := sanitize svc.1
  let gs ← add_to_group gs service host
  svc.2.foldlM
    (fun gs tag => do
      let gs ← add_to_group gs (service ++ "_" ++ tag) host
      pure (registerChild gs service (service ++ "_" ++ tag)))
    gs

/-- One iteration of the metadata loop of `build_full_inventory`
(lines 66-86): skip empty values and `False`-shaped ones, else add the
node to the derived group. -/
def metaGroupStep (name : String) (gs : Dict InvGroup) (kv : String × String) :
    Except BuildError (Dict InvGroup) :=
  if kv.2 = "" then pure gs
  else
    match metaGroupName kv.1 kv.2 with
    | none => pure gs
    | some g => add_to_group gs g name

/-- The group mutations of one loop iteration of `build_full_inventory`
(lines 62-97): datacenter group, metadata groups, service/tag groups. -/
def processNodeGroups (x : Node × Dict (List String)) (gs : Dict InvGroup) :
    Except BuildError (Dict InvGroup) := do
  let gs ← add_to_group gs x.1.datacenter x.1.name
  let gs ← x.1.metaD.foldlM (metaGroupStep x.1.name) gs
  x.2.foldlM (processService x.1.name) gs

/-- One loop iteration of `build_full_inventory` (lines 60-97): store the
node's hostvars (line 61; `get_node_vars` is evaluated first, so its
`KeyError` pre-empts the assignment), then apply the group mutations. -/
def processNode (tagged_address : String) (inv : Inventory)
    (x : Node × Dict (List String)) : Except BuildError Inventory :=
  match get_node_vars x.1 tagged_address with
  | none => .error (.missingAddress x.1.name tagged_address)
  | some vars =>
    (processNodeGroups x inv.groups).map
      (fun gs => ⟨dictSet inv.hostvars x.1.name vars, gs⟩)

/-- Lexicographic comparison of code-point sequences: Python's `<=` on
strings. -/
def charListLe : List Char → List Char → Bool
  | [], _ => true
  | _ :: _, [] => false
  | c :: cs, d :: ds =>
    if c.toNat < d.toNat then true
    else if d.toNat < c.toNat then false
    else charListLe cs ds

/-- See `charListLe`. -/
def strLe (a b : String) : Bool := charListLe a.data b.data

/-- Stable sort of a string list; the model of Python's `list.sort()`
(which is a stable sort under the same lexicographic order). -/
def insertSorted (x : String) : List String → List String
  | [] => [x]
  | y :: ys => if strLe x y then x :: y :: ys else y :: insertSorted x ys

/-- See `insertSorted`. -/
def sortStrings : List String → List String
  | [] => []
  | x :: xs => insertSorted x (sortStrings xs)

/-- Line 99-101: `all_groups`, every inventory key except `_meta`, `all`
and `ungrouped`, in insertion order. -/
def all_groups_keys (gs : Dict InvGroup) : List String :=
  (gs.map Prod.fst).filter (fun k => !(["_meta", "all", "ungrouped"].contains k))

/-- Lines 99-104: extend `all.children` with `all_groups` and sort. -/
def finalizeInventory (inv : Inventory) : Inventory :=
  ⟨inv.hostvars,
   inv.groups.map (fun p =>
     if p.1 = "all" then
       (p.1, ⟨p.2.hosts, sortStrings (p.2.children ++ all_groups_keys inv.groups)⟩)
     else p)⟩

/-- `build_full_inventory` (lines 59-104).  Each node is paired with the
service map the catalog client would return for it (name → tags): one
pass over the nodes, then the `all.children` finalization. -/
def build_full_inventory (nodes : List (Node × Dict (List String)))
    (tagged_address : String) : Except BuildError Inventory :=
  (nodes.foldlM (processNode tagged_address) emptyInventory).map finalizeInventory

/-- Modelled from the spec: `get_node_vars` honouring the metadata
type-override map (`metadata_type_overrides` / `node_meta_types`).  The
repository's tests import `get_node_meta_types` and call
`build_full_inventory(node_meta_types=...)`, but that code is absent from
`consul_awx.py`; per the spec, an override of `"str"` always keeps the
(stripped) value as a string regardless of shape, and absent keys use the
automatic inference of `get_node_vars`. -/
def typedVarsStep (node_meta_types : Dict String) (vars : Dict PyVal)
    (kv : String × String) : Dict PyVal :=
  if kv.2 = "" then vars
  else if dictGet? node_meta_types kv.1 = some "str" then
    dictSet vars kv.1 (.str (pyStrip kv.2))
  else dictSet vars kv.1 (coerceMetaValue (pyStrip kv.2))

/-- Modelled from the spec: see `typedVarsStep`. -/
def get_node_vars_typed (node : Node) (tagged_address : String)
    (node_meta_types : Dict String) : Option (Dict PyVal) :=
  match dictGet? node.taggedAddresses tagged_address with
  | none => none
  | some addr =>
    some (node.metaD.foldl (typedVarsStep node_meta_types)
      [("ansible_host", .str addr), ("datacenter", .str node.datacenter)])

deriving instance DecidableEq for Except

example : sanitize "web-server" = "web_server" := by decide
example : str2bool? "YES" = some true := by decide
example : str2bool? "0" = some false := by decide
example : str2bool? "94" = none := by decide
example : coerceMetaValue "94" = .int 94 := by decide
example : coerceMetaValue "TRUE" = .bool true := by decide
example : pyStrip "  a b " = "a b" := by decide

/-! ### Dictionary lemmas -/

lemma dictGet?_dictSet_self {α : Type} (d : Dict α) (k : String) (v : α) :
    dictGet? (dictSet d k v) k = some v := by
  induction d with
  | nil => simp [dictSet, dictGet?]
  | cons p ps ih =>
    by_cases h : p.1 = k
    · simp [dictSet, dictGet?, h]
    · simp [dictSet, dictGet?, h, ih]

lemma dictGet?_dictSet_ne {α : Type} (d : Dict α) (k k' : String) (v : α)
    (h : k' ≠ k) : dictGet? (dictSet d k v) k' = dictGet? d k' := by
  have hkk : ¬(k = k') := fun hh => h hh.symm
  induction d with
  | nil => simp [dictSet, dictGet?, hkk]
  | cons p ps ih =>
    by_cases hp : p.1 = k
    · rw [dictSet, if_pos hp, dictGet?, dictGet?, if_neg hkk,
        if_neg (fun hh => hkk (hp.symm.trans hh))]
    · rw [dictSet, if_neg hp, dictGet?, dictGet?]
      by_cases hp' : p.1 = k'
      · rw [if_pos hp', if_pos hp']
      · rw [if_neg hp', if_neg hp', ih]

lemma mem_dictSet {α : Type} (d : Dict α) (k : String) (v : α) (p : String × α)
    (h : p ∈ dictSet d k v) : p ∈ d ∨ p = (k, v) := by
  induction d with
  | nil => simp [dictSet] at h; simp [h]
  | cons q qs ih =>
    by_cases hq : q.1 = k
    · rw [dictSet, if_pos hq] at h
      rcases List.mem_cons.1 h with h | h
      · exact Or.inr h
      · exact Or.inl (List.mem_cons_of_mem _ h)
    · rw [dictSet, if_neg hq] at h
      rcases List.mem_cons.1 h with h | h
      · exact Or.inl (h ▸ List.mem_cons_self _ _)
      · rcases ih h with h | h
        · exact Or.inl (List.mem_cons_of_mem _ h)
        · exact Or.inr h

/-! ### `Except` and `foldlM` plumbing -/

lemma ok_bind {ε α β : Type} (a : α) (f : α → Except ε β) :
    (Except.ok a >>= f) = f a := rfl

lemma error_bind {ε α β : Type} (e : ε) (f : α → Except ε β) :
    ((Except.error e : Except ε α) >>= f) = Except.error e := rfl

lemma ok_map {ε α β : Type} (a : α) (f : α → β) :
    (Except.ok a : Except ε α).map f = Except.ok (f a) := rfl

lemma error_map {ε α β : Type} (e : ε) (f : α → β) :
    (Except.error e : Except ε α).map f = Except.error e := rfl

lemma foldlM_ok_cons {ε α β : Type} {f : β → α → Except ε β} {x : α} {l : List α}
    {b r : β} (h : (x :: l).foldlM f b = .ok r) :
    ∃ b', f b x = .ok b' ∧ l.foldlM f b' = .ok r := by
  rw [List.foldlM_cons] at h
  cases hfx : f b x with
  | error e => rw [hfx, error_bind] at h; cases h
  | ok b' => rw [hfx, ok_bind] at h; exact ⟨b', rfl, h⟩

lemma foldlM_ok_nil {ε α β : Type} {f : β → α → Except ε β} {b r : β}
    (h : ([] : List α).foldlM f b = .ok r) : b = r := by
  rw [List.foldlM_nil] at h
  exact Except.ok.inj h

lemma foldlM_ok_preserve {ε α β : Type} (f : β → α → Except ε β) (P : β → Prop) :
    ∀ (l : List α), (∀ a ∈ l, ∀ b b', P b → f b a = .ok b' → P b') →
      ∀ b r, l.foldlM f b = .ok r → P b → P r := by
  intro l
  induction l with
  | nil => intro _ b r h hb; cases foldlM_ok_nil h; exact hb
  | cons x xs ih =>
    intro hstep b r h hb
    obtain ⟨b', hfx, hrest⟩ := foldlM_ok_cons h
    exact ih (fun a ha => hstep a (List.mem_cons_of_mem _ ha)) b' r hrest
      (hstep x (List.mem_cons_self _ _) b b' hb hfx)

lemma foldlM_error_of_mem {ε α β : Type} (f : β → α → Except ε β) (bad : α)
    (hbad : ∀ b, ∃ e, f b bad = .error e) :
    ∀ (l : List α), bad ∈ l → ∀ b, ∃ e, l.foldlM f b = .error e := by
  intro l
  induction l with
  | nil => intro h; cases h
  | cons x xs ih =>
    intro hmem b
    rw [List.foldlM_cons]
    cases hfx : f b x with
    | error e => exact ⟨e, by rw [error_bind]⟩
    | ok b' =>
      rcases List.mem_cons.1 hmem with h | h
      · obtain ⟨e, he⟩ := hbad b
        rw [← h, he] at hfx
        cases hfx
      · obtain ⟨e, he⟩ := ih h b'
        exact ⟨e, by rw [ok_bind, he]⟩

/-! ### `sanitize` lemmas -/

lemma sanChar_idem (c : Char) : sanChar (sanChar c) = sanChar c := by
  unfold sanChar
  by_cases h : c.isAlphanum
  · simp [h]
  · simp [h, show ('_' : Char).isAlphanum = false from by decide]

lemma sanitize_idem (s : String) : sanitize (sanitize s) = sanitize s := by
  unfold sanitize
  have h : sanChar ∘ sanChar = sanChar := funext sanChar_idem
  show String.mk ((s.data.map sanChar).map sanChar) = String.mk (s.data.map sanChar)
  rw [List.map_map, h]

lemma sanChar_shape (c : Char) : (sanChar c).isAlphanum ∨ sanChar c = '_' := by
  unfold sanChar
  by_cases h : c.isAlphanum
  · simp [h]
  · simp [h]

/-! ### Metadata-fold lemmas for `get_node_vars` and `get_node_vars_typed` -/

lemma foldl_metaVarsStep_not_mem (meta : Dict String) (k : String)
    (h : ∀ kv ∈ meta, kv.1 ≠ k) :
    ∀ vars, dictGet? (meta.foldl metaVarsStep vars) k = dictGet? vars k := by
  induction meta with
  | nil => intro vars; rfl
  | cons kv rest ih =>
    intro vars
    rw [List.foldl_cons, ih (fun kv' h' => h kv' (List.mem_cons_of_mem _ h'))]
    unfold metaVarsStep
    by_cases hv : kv.2 = ""
    · rw [if_pos hv]
    · rw [if_neg hv,
        dictGet?_dictSet_ne _ _ _ _ (Ne.symm (h kv (List.mem_cons_self _ _)))]

lemma foldl_metaVarsStep_mem (meta : Dict String) (k v : String)
    (hnd : (meta.map Prod.fst).Nodup) (hmem : (k, v) ∈ meta) (hv : v ≠ "") :
    ∀ vars, dictGet? (meta.foldl metaVarsStep vars) k
      = some (coerceMetaValue (pyStrip v)) := by
  induction meta with
  | nil => cases hmem
  | cons kv rest ih =>
    intro vars
    rw [List.map_cons, List.nodup_cons] at hnd
    rw [List.foldl_cons]
    rcases List.mem_cons.1 hmem with h | h
    · have hk : kv.1 = k := by rw [← h]
      have hval : kv.2 = v := by rw [← h]
      have hrest : ∀ kv' ∈ rest, kv'.1 ≠ k := by
        intro kv' h' hh
        exact hnd.1 (by rw [hk, ← hh]; exact List.mem_map_of_mem Prod.fst h')
      rw [foldl_metaVarsStep_not_mem rest k hrest]
      unfold metaVarsStep
      rw [hval, if_neg hv, hk, dictGet?_dictSet_self]
    · exact ih hnd.2 h (metaVarsStep vars kv)

lemma foldl_typedVarsStep_not_mem (types meta : Dict String) (k : String)
    (h : ∀ kv ∈ meta, kv.1 ≠ k) :
    ∀ vars, dictGet? (meta.foldl (typedVarsStep types) vars) k = dictGet? vars k := by
  induction meta with
  | nil => intro vars; rfl
  | cons kv rest ih =>
    intro vars
    rw [List.foldl_cons, ih (fun kv' h' => h kv' (List.mem_cons_of_mem _ h'))]
    unfold typedVarsStep
    by_cases hv : kv.2 = ""
    · rw [if_pos hv]
    · rw [if_neg hv]
      by_cases ht : dictGet? types kv.1 = some "str"
      · rw [if_pos ht,
          dictGet?_dictSet_ne _ _ _ _ (Ne.symm (h kv (List.mem_cons_self _ _)))]
      · rw [if_neg ht,
          dictGet?_dictSet_ne _ _ _ _ (Ne.symm (h kv (List.mem_cons_self _ _)))]

lemma foldl_typedVarsStep_str (types meta : Dict String) (k v : String)
    (hnd : (meta.map Prod.fst).Nodup) (hmem : (k, v) ∈ meta) (hv : v ≠ "")
    (hstr : dictGet? types k = some "str") :
    ∀ vars, dictGet? (meta.foldl (typedVarsStep types) vars) k
      = some (.str (pyStrip v)) := by
  induction meta with
  | nil => cases hmem
  | cons kv rest ih =>
    intro vars
    rw [List.map_cons, List.nodup_cons] at hnd
    rw [List.foldl_cons]
    rcases List.mem_cons.1 hmem with h | h
    · have hk : kv.1 = k := by rw [← h]
      have hval : kv.2 = v := by rw [← h]
      have hrest : ∀ kv' ∈ rest, kv'.1 ≠ k := by
        intro kv' h' hh
        exact hnd.1 (by rw [hk, ← hh]; exact List.mem_map_of_mem Prod.fst h')
      rw [foldl_typedVarsStep_not_mem types rest k hrest]
      unfold typedVarsStep
      rw [hval, if_neg hv, hk, if_pos hstr, dictGet?_dictSet_self]
    · exact ih hnd.2 h (typedVarsStep types vars kv)

/-! ### Claim C7 -/

/-- C7: the sanitization function is total and idempotent: for every input
string, applying it twice yields the same result as applying it once, and
its output contains only characters from `[A-Za-z0-9_]`. -/
theorem C7_sanitize_idempotent_total (s : String) :
    sanitize (sanitize s) = sanitize s ∧
    ∀ c ∈ (sanitize s).data, c.isAlphanum ∨ c = '_' := by
  refine ⟨sanitize_idem s, ?_⟩
  intro c hc
  have hc' : c ∈ s.data.map sanChar := hc
  obtain ⟨a, _, rfl⟩ := List.mem_map.1 hc'
  exact sanChar_shape a

/-- Witness for C7 at a concrete string and character. -/
theorem C7_witness :
    sanitize (sanitize "web-server") = sanitize "web-server" ∧
    (('w' : Char).isAlphanum ∨ ('w' : Char) = '_') :=
  ⟨(C7_sanitize_idempotent_total "web-server").1,
   (C7_sanitize_idempotent_total "web-server").2 'w' (by decide)⟩

/-! ### Claim C9 -/

lemma registerChild_idem (gs : Dict InvGroup) (s c : String) :
    registerChild (registerChild gs s c) s c = registerChild gs s c := by
  unfold registerChild
  rw [List.map_map]
  apply List.map_congr_left
  intro p _
  by_cases hp : p.1 = s
  · by_cases hcc : c ∈ p.2.children
    · simp [Function.comp, hp, hcc]
    · simp [Function.comp, hp, hcc]
  · simp [Function.comp, hp]

/-- C9: the full build is a pure function of the node list and the per-node
service registrations, so two runs over identical input produce identical
inventory trees; and child registration (lines 95-97) is idempotent, so
cross-node re-registration of the same service/tag child leaves the tree
unchanged. -/
theorem C9_build_deterministic (nodes : List (Node × Dict (List String)))
    (ta : String) (gs : Dict InvGroup) (s c : String) :
    build_full_inventory nodes ta = build_full_inventory nodes ta ∧
    registerChild (registerChild gs s c) s c = registerChild gs s c :=
  ⟨rfl, registerChild_idem gs s c⟩

/-! ### Claim C6 -/

lemma get_node_vars_none (n : Node) (ta : String)
    (h : dictGet? n.taggedAddresses ta = none) : get_node_vars n ta = none := by
  unfold get_node_vars
  rw [h]

lemma processNode_missing (ta : String) (x : Node × Dict (List String))
    (h : dictGet? x.1.taggedAddresses ta = none) (inv : Inventory) :
    processNode ta inv x = .error (.missingAddress x.1.name ta) := by
  unfold processNode
  rw [get_node_vars_none _ _ h]

/-- C6: if any node in the input lacks the requested tagged-address class the
whole build fails (an `Except.error`, so no inventory at all is produced),
and when that node is reached first the error is precisely the
missing-address error for it. -/
theorem C6_missing_address_fails_build (nodes : List (Node × Dict (List String)))
    (ta : String) :
    ((∃ x ∈ nodes, dictGet? x.1.taggedAddresses ta = none) →
      ∃ e, build_full_inventory nodes ta = .error e) ∧
    (∀ (n : Node) (svcs : Dict (List String)) (rest : List (Node × Dict (List String))),
      dictGet? n.taggedAddresses ta = none →
      build_full_inventory ((n, svcs) :: rest) ta
        = .error (.missingAddress n.name ta)) := by
  constructor
  · rintro ⟨x, hx, hbad⟩
    obtain ⟨e, he⟩ := foldlM_error_of_mem (processNode ta) x
      (fun b => ⟨_, processNode_missing ta x hbad b⟩) nodes hx emptyInventory
    exact ⟨e, by unfold build_full_inventory; rw [he, error_map]⟩
  · intro n svcs rest h
    unfold build_full_inventory
    rw [List.foldlM_cons, processNode_missing ta (n, svcs) h emptyInventory,
      error_bind, error_map]

/-- Witness for C6: a node with only a `lan` tagged address, built with
`wan`, fails outright. -/
theorem C6_witness :
    (∃ x ∈ [((⟨"n1", "dc1", [("lan", "10.0.0.0")], none⟩ : Node),
              ([] : Dict (List String)))],
        dictGet? x.1.taggedAddresses "wan" = none) ∧
    build_full_inventory
        [((⟨"n1", "dc1", [("lan", "10.0.0.0")], none⟩ : Node), [])] "wan"
      = .error (.missingAddress "n1" "wan") :=
  ⟨⟨_, List.mem_cons_self _ _, by decide⟩,
   (C6_missing_address_fails_build
       [((⟨"n1", "dc1", [("lan", "10.0.0.0")], none⟩ : Node), [])] "wan").2
     _ [] [] (by decide)⟩

/-! ### Claim C1 -/

/-- C1 as stated is falsified by a node whose metadata contains the key
`ansible_host`: the metadata loop of `get_node_vars` overwrites the
tagged-address entry, so `ansible_host` ends up `"evil"`, not the node's
tagged address `"10.0.0.0"`. -/
theorem C1_counterexample :
    Option.bind
        (get_node_vars
          ⟨"n1", "dc1", [("lan", "10.0.0.0")], some [("ansible_host", "evil")]⟩ "lan")
        (fun vars => dictGet? vars "ansible_host")
      = some (.str "evil") ∧
    dictGet? (Node.taggedAddresses
        ⟨"n1", "dc1", [("lan", "10.0.0.0")], some [("ansible_host", "evil")]⟩) "lan"
      = some "10.0.0.0" ∧
    (PyVal.str "evil" ≠ PyVal.str "10.0.0.0") :=
  ⟨by decide, by decide, by decide⟩

/-- C1 (amended): provided no metadata key is named `ansible_host` or
`datacenter`, the Host Variable Map computed by `get_node_vars` (used both
by the full build and by the single-host variables operation) has
`ansible_host` = the node's tagged address for the requested class,
`datacenter` = the node's datacenter, and, for each metadata key with
non-empty value, the stripped value coerced by `coerceMetaValue`
(integer for all-digit strings, else boolean for case-insensitive
`true`/`false`, else string). -/
theorem C1_hostvars_amended (node : Node) (ta addr : String)
    (haddr : dictGet? node.taggedAddresses ta = some addr)
    (hnd : (node.metaD.map Prod.fst).Nodup)
    (hkeys : ∀ kv ∈ node.metaD, kv.1 ≠ "ansible_host" ∧ kv.1 ≠ "datacenter") :
    ∃ vars, get_node_vars node ta = some vars ∧
      dictGet? vars "ansible_host" = some (.str addr) ∧
      dictGet? vars "datacenter" = some (.str node.datacenter) ∧
      ∀ kv ∈ node.metaD, kv.2 ≠ "" →
        dictGet? vars kv.1 = some (coerceMetaValue (pyStrip kv.2)) := by
  refine ⟨node.metaD.foldl metaVarsStep
      [("ansible_host", .str addr), ("datacenter", .str node.datacenter)],
    ?_, ?_, ?_, ?_⟩
  · unfold get_node_vars
    rw [haddr]
  · rw [foldl_metaVarsStep_not_mem _ _ (fun kv h => (hkeys kv h).1)]
    simp [dictGet?]
  · rw [foldl_metaVarsStep_not_mem _ _ (fun kv h => (hkeys kv h).2)]
    simp [dictGet?]
  · intro kv hkv hne
    exact foldl_metaVarsStep_mem node.metaD kv.1 kv.2 hnd (by simpa using hkv) hne _

/-- Witness for C1 (amended) at a concrete node. -/
theorem C1_witness :
    ∃ vars, get_node_vars
        ⟨"node1", "dc1", [("lan", "10.0.0.0")], some [("cluster", "94")]⟩ "lan"
      = some vars ∧
      dictGet? vars "ansible_host" = some (.str "10.0.0.0") ∧
      dictGet? vars "datacenter" = some (.str "dc1") ∧
      ∀ kv ∈ (Node.metaD ⟨"node1", "dc1", [("lan", "10.0.0.0")], some [("cluster", "94")]⟩),
        kv.2 ≠ "" → dictGet? vars kv.1 = some (coerceMetaValue (pyStrip kv.2)) :=
  C1_hostvars_amended _ "lan" "10.0.0.0" (by decide) (by decide) (by decide)

/-! ### Claim C3 -/

/-- C3 (spec-modelled, see `get_node_vars_typed`): if the metadata
type-override map assigns `"str"` to a key, the hostvars entry for that key
is the stripped value kept as a string, whatever its shape. -/
theorem C3_str_override_keeps_string (node : Node) (ta : String)
    (types : Dict String) (k v addr : String)
    (haddr : dictGet? node.taggedAddresses ta = some addr)
    (hnd : (node.metaD.map Prod.fst).Nodup)
    (hstr : dictGet? types k = some "str")
    (hmem : (k, v) ∈ node.metaD) (hv : v ≠ "") :
    Option.bind (get_node_vars_typed node ta types) (fun vars => dictGet? vars k)
      = some (.str (pyStrip v)) := by
  unfold get_node_vars_typed
  rw [haddr]
  exact foldl_typedVarsStep_str types node.metaD k v hnd hmem hv hstr _

/-- Witness for C3: an all-digit value under a `"str"` override stays the
string `"94"`. -/
theorem C3_witness :
    Option.bind
        (get_node_vars_typed
          ⟨"node1", "dc1", [("lan", "10.0.0.0")], some [("cluster", "94")]⟩ "lan"
          [("cluster", "str")])
        (fun vars => dictGet? vars "cluster")
      = some (.str (pyStrip "94")) :=
  C3_str_override_keeps_string _ "lan" _ "cluster" "94" "10.0.0.0"
    (by decide) (by decide) (by decide) (by decide) (by decide)

/-! ### Group-dictionary lookup machinery -/

lemma lookup_map_modAt (mod : InvGroup → InvGroup) (gs : Dict InvGroup) (g k : String) :
    dictGet? (gs.map (fun p => if p.1 = g then (p.1, mod p.2) else p)) k
      = (dictGet? gs k).map (fun grp => if k = g then mod grp else grp) := by
  induction gs with
  | nil => rfl
  | cons p ps ih =>
    by_cases hp : p.1 = g <;> by_cases hk : p.1 = k
    · have hkg : k = g := by rw [← hk, hp]
      simp [dictGet?, hp, hk, hkg]
    · have hgk : ¬(g = k) := fun h => hk (hp.trans h)
      simp [dictGet?, hp, hk, ih, hgk]
    · have hkg : ¬(k = g) := fun h => hp (hk.trans h)
      simp [dictGet?, hp, hk, hkg]
    · simp [dictGet?, hp, hk, ih]

lemma map_fst_modAt (mod : InvGroup → InvGroup) (gs : Dict InvGroup) (g : String) :
    (gs.map (fun p => if p.1 = g then (p.1, mod p.2) else p)).map Prod.fst
      = gs.map Prod.fst := by
  induction gs with
  | nil => rfl
  | cons p ps ih =>
    by_cases hp : p.1 = g <;> simp [hp, ih]

lemma dictGet?_append_some {α : Type} (gs l : Dict α) (k : String) (v : α)
    (h : dictGet? gs k = some v) : dictGet? (gs ++ l) k = some v := by
  induction gs with
  | nil => cases h
  | cons p ps ih =>
    by_cases hp : p.1 = k
    · rw [dictGet?, if_pos hp] at h
      rw [List.cons_append, dictGet?, if_pos hp, h]
    · rw [dictGet?, if_neg hp] at h
      rw [List.cons_append, dictGet?, if_neg hp]
      exact ih h

lemma dictGet?_append_none {α : Type} (gs l : Dict α) (k : String)
    (h : dictGet? gs k = none) : dictGet? (gs ++ l) k = dictGet? l k := by
  induction gs with
  | nil => rfl
  | cons p ps ih =>
    by_cases hp : p.1 = k
    · rw [dictGet?, if_pos hp] at h
      cases h
    · rw [dictGet?, if_neg hp] at h
      rw [List.cons_append, dictGet?, if_neg hp]
      exact ih h

/-- Master description of a successful `add_to_group`: exactly the target
(sanitized) key changes — its hosts get the new host appended (starting
from `[]` when the group is created) — and every other key is untouched. -/
lemma add_to_group_ok_lookup (gs : Dict InvGroup) (group host : String)
    (gs' : Dict InvGroup) (hok : add_to_group gs group host = .ok gs')
    (k : String) :
    dictGet? gs' k =
      if k = sanitize group then
        some (match dictGet? gs k with
          | some grp => ⟨grp.hosts ++ [host], grp.children⟩
          | none => ⟨[host], []⟩)
      else dictGet? gs k := by
  unfold add_to_group at hok
  by_cases hm : sanitize group = "_meta"
  · rw [if_pos hm] at hok
    cases hok
  · rw [if_neg hm] at hok
    cases Except.ok.inj hok
    by_cases hs : (dictGet? gs (sanitize group)).isSome
    · rw [if_pos hs,
        lookup_map_modAt (fun grp => ⟨grp.hosts ++ [host], grp.children⟩) gs (sanitize group) k]
      by_cases hk : k = sanitize group
      · subst hk
        obtain ⟨grp, hgrp⟩ := Option.isSome_iff_exists.1 hs
        rw [hgrp]
        simp
      · rw [if_neg hk]
        cases hq : dictGet? gs k <;> simp [hk]
    · rw [if_neg hs,
        lookup_map_modAt (fun grp => ⟨grp.hosts ++ [host], grp.children⟩) _ (sanitize group) k]
      have hnone : dictGet? gs (sanitize group) = none :=
        Option.not_isSome_iff_eq_none.1 hs
      by_cases hk : k = sanitize group
      · subst hk
        rw [dictGet?_append_none gs _ _ hnone, hnone]
        simp [dictGet?]
      · rw [if_neg hk]
        cases hq : dictGet? gs k with
        | some grp => rw [dictGet?_append_some gs _ _ _ hq]; simp [hk]
        | none =>
          have hks : ¬(sanitize group = k) := fun h => hk h.symm
          rw [dictGet?_append_none gs _ _ hq]
          simp [dictGet?, hk, hks]

lemma registerChild_lookup (gs : Dict InvGroup) (s c k : String) :
    dictGet? (registerChild gs s c) k
      = (dictGet? gs k).map
          (fun grp =>
            if k = s then
              (if c ∈ grp.children then grp else ⟨grp.hosts, grp.children ++ [c]⟩)
            else grp) :=
  lookup_map_modAt
    (fun grp => if c ∈ grp.children then grp else ⟨grp.hosts, grp.children ++ [c]⟩)
    gs s k

lemma registerChild_keys (gs : Dict InvGroup) (s c : String) :
    (registerChild gs s c).map Prod.fst = gs.map Prod.fst :=
  map_fst_modAt
    (fun grp => if c ∈ grp.children then grp else ⟨grp.hosts, grp.children ++ [c]⟩)
    gs s

lemma registerChild_hosts (gs : Dict InvGroup) (s c k : String) :
    (dictGet? (registerChild gs s c) k).map InvGroup.hosts
      = (dictGet? gs k).map InvGroup.hosts := by
  rw [registerChild_lookup]
  cases hq : dictGet? gs k with
  | none => rfl
  | some grp =>
    by_cases hk : k = s
    · by_cases hc : c ∈ grp.children <;> simp [hk, hc]
    · simp [hk]

lemma add_to_group_ok_keys (gs : Dict InvGroup) (group host : String)
    (gs' : Dict InvGroup) (hok : add_to_group gs group host = .ok gs') :
    gs'.map Prod.fst = gs.map Prod.fst ∨
    gs'.map Prod.fst = gs.map Prod.fst ++ [sanitize group] := by
  unfold add_to_group at hok
  by_cases hm : sanitize group = "_meta"
  · rw [if_pos hm] at hok
    cases hok
  · rw [if_neg hm] at hok
    cases Except.ok.inj hok
    by_cases hs : (dictGet? gs (sanitize group)).isSome
    · rw [if_pos hs]
      exact Or.inl
        (map_fst_modAt (fun grp => ⟨grp.hosts ++ [host], grp.children⟩) gs (sanitize group))
    · rw [if_neg hs]
      refine Or.inr ?_
      have hmf := map_fst_modAt (fun grp => ⟨grp.hosts ++ [host], grp.children⟩)
        (gs ++ [(sanitize group, ⟨[], []⟩)]) (sanitize group)
      rw [hmf, List.map_append]
      rfl

lemma bind_ok_decomp {ε α β : Type} {x : Except ε α} {f : α → Except ε β} {r : β}
    (h : (x >>= f) = .ok r) : ∃ a, x = .ok a ∧ f a = .ok r := by
  cases x with
  | error e => rw [error_bind] at h; cases h
  | ok a => rw [ok_bind] at h; exact ⟨a, rfl, h⟩

/-- Preservation of a predicate through one `processService` call, given
preservation at exactly the `add_to_group` and `registerChild` calls the
code makes for this service. -/
lemma processService_preserve (P : Dict InvGroup → Prop) (host : String)
    (svc : String × List String)
    (hadd : ∀ group,
      (group = sanitize svc.1 ∨ ∃ tag ∈ svc.2, group = sanitize svc.1 ++ "_" ++ tag) →
      ∀ gs gs', P gs → add_to_group gs group host = .ok gs' → P gs')
    (hreg : ∀ tag ∈ svc.2, ∀ gs, P gs →
      P (registerChild gs (sanitize svc.1) (sanitize svc.1 ++ "_" ++ tag))) :
    ∀ gs gs', processService host gs svc = .ok gs' → P gs → P gs' := by
  intro gs gs' hok hP
  unfold processService at hok
  obtain ⟨gs1, hadd1, hfold⟩ := bind_ok_decomp hok
  have hP1 : P gs1 := hadd _ (Or.inl rfl) gs gs1 hP hadd1
  refine foldlM_ok_preserve _ P svc.2 ?_ gs1 gs' hfold hP1
  intro tag htag b b' hPb hstep
  obtain ⟨b1, haddt, hpure⟩ := bind_ok_decomp hstep
  cases Except.ok.inj hpure
  exact hreg tag htag b1 (hadd _ (Or.inr ⟨tag, htag, rfl⟩) b b1 hPb haddt)

/-- Preservation of a predicate through one node's group mutations, given
preservation at exactly the calls the code makes for this node. -/
lemma processNodeGroups_preserve (P : Dict InvGroup → Prop)
    (x : Node × Dict (List String))
    (hadd : ∀ group,
      (group = x.1.datacenter ∨
        (∃ kv ∈ x.1.metaD, metaGroupName kv.1 kv.2 = some group) ∨
        (∃ svc ∈ x.2, group = sanitize svc.1 ∨
          ∃ tag ∈ svc.2, group = sanitize svc.1 ++ "_" ++ tag)) →
      ∀ gs gs', P gs → add_to_group gs group x.1.name = .ok gs' → P gs')
    (hreg : ∀ svc ∈ x.2, ∀ tag ∈ svc.2, ∀ gs, P gs →
      P (registerChild gs (sanitize svc.1) (sanitize svc.1 ++ "_" ++ tag))) :
    ∀ gs gs', processNodeGroups x gs = .ok gs' → P gs → P gs' := by
  intro gs gs' hok hP
  unfold processNodeGroups at hok
  obtain ⟨gs1, hdc, hok⟩ := bind_ok_decomp hok
  obtain ⟨gs2, hmeta, hsvcs⟩ := bind_ok_decomp hok
  have hP1 : P gs1 := hadd _ (Or.inl rfl) gs gs1 hP hdc
  have hP2 : P gs2 := by
    refine foldlM_ok_preserve _ P x.1.metaD ?_ gs1 gs2 hmeta hP1
    intro kv hkv b b' hPb hstep
    unfold metaGroupStep at hstep
    by_cases hv : kv.2 = ""
    · rw [if_pos hv] at hstep
      cases Except.ok.inj hstep
      exact hPb
    · rw [if_neg hv] at hstep
      cases hmg : metaGroupName kv.1 kv.2 with
      | none => rw [hmg] at hstep; cases Except.ok.inj hstep; exact hPb
      | some g =>
        rw [hmg] at hstep
        exact hadd g (Or.inr (Or.inl ⟨kv, hkv, hmg⟩)) b b' hPb hstep
  refine foldlM_ok_preserve _ P x.2 ?_ gs2 gs' hsvcs hP2
  intro svc hsvc b b' hPb hstep
  exact processService_preserve P x.1.name svc
    (fun group hg => hadd group (Or.inr (Or.inr ⟨svc, hsvc, hg⟩)))
    (fun tag htag => hreg svc hsvc tag htag) b b' hstep hPb

lemma processNode_ok_parts (ta : String) (inv : Inventory)
    (x : Node × Dict (List String)) (inv' : Inventory)
    (hok : processNode ta inv x = .ok inv') :
    ∃ vars gs', get_node_vars x.1 ta = some vars ∧
      processNodeGroups x inv.groups = .ok gs' ∧
      inv' = ⟨dictSet inv.hostvars x.1.name vars, gs'⟩ := by
  unfold processNode at hok
  cases hv : get_node_vars x.1 ta with
  | none => rw [hv] at hok; cases hok
  | some vars =>
    rw [hv] at hok
    have hok2 : (processNodeGroups x inv.groups).map
        (fun gs => (⟨dictSet inv.hostvars x.1.name vars, gs⟩ : Inventory)) = .ok inv' := hok
    cases hg : processNodeGroups x inv.groups with
    | error e => rw [hg, error_map] at hok2; cases hok2
    | ok gs' =>
      rw [hg, ok_map] at hok2
      exact ⟨vars, gs', rfl, rfl, (Except.ok.inj hok2).symm⟩

lemma build_ok_parts (nodes : List (Node × Dict (List String))) (ta : String)
    (inv : Inventory) (hok : build_full_inventory nodes ta = .ok inv) :
    ∃ invp, nodes.foldlM (processNode ta) emptyInventory = .ok invp ∧
      inv = finalizeInventory invp := by
  unfold build_full_inventory at hok
  cases hf : nodes.foldlM (processNode ta) emptyInventory with
  | error e => rw [hf, error_map] at hok; cases hok
  | ok invp => rw [hf, ok_map] at hok; exact ⟨invp, rfl, (Except.ok.inj hok).symm⟩

lemma finalize_lookup (inv : Inventory) (k : String) :
    dictGet? (finalizeInventory inv).groups k
      = (dictGet? inv.groups k).map (fun grp =>
          if k = "all" then
            ⟨grp.hosts, sortStrings (grp.children ++ all_groups_keys inv.groups)⟩
          else grp) :=
  lookup_map_modAt
    (fun grp => ⟨grp.hosts, sortStrings (grp.children ++ all_groups_keys inv.groups)⟩)
    inv.groups "all" k

lemma finalize_keys (inv : Inventory) :
    (finalizeInventory inv).groups.map Prod.fst = inv.groups.map Prod.fst :=
  map_fst_modAt
    (fun grp => ⟨grp.hosts, sortStrings (grp.children ++ all_groups_keys inv.groups)⟩)
    inv.groups "all"

/-- Lift a groups-level invariant through the whole node loop. -/
lemma buildFold_groups_preserve (P : Dict InvGroup → Prop) (ta : String)
    (nodes : List (Node × Dict (List String)))
    (h : ∀ x ∈ nodes, ∀ gs gs', P gs → processNodeGroups x gs = .ok gs' → P gs') :
    ∀ inv inv', nodes.foldlM (processNode ta) inv = .ok inv' →
      P inv.groups → P inv'.groups := by
  intro inv inv' hfold hP
  refine foldlM_ok_preserve (processNode ta) (fun j => P j.groups) nodes ?_ inv inv' hfold hP
  intro x hx j j' hPj hok
  obtain ⟨vars, gs', _, hg, rfl⟩ := processNode_ok_parts ta j x j' hok
  exact h x hx j.groups gs' hPj hg

lemma metaGroupName_cases (k v g : String) (h : metaGroupName k v = some g) :
    g = k ∨ g = k ++ "_" ++ v := by
  unfold metaGroupName at h
  cases hs : str2bool? (pyStrip v) with
  | none => rw [hs] at h; exact Or.inr (Option.some.inj h).symm
  | some b =>
    cases b with
    | false => rw [hs] at h; cases h
    | true => rw [hs] at h; exact Or.inl (Option.some.inj h).symm

/-! ### Claim C8 -/

/-- C8 as stated is falsified by a node whose datacenter is named
`ungrouped`: `add_to_group("ungrouped", host)` appends the host to the
pre-existing `ungrouped` group, so it is non-empty after the build. -/
theorem C8_counterexample :
    Except.map (fun inv => dictGet? inv.groups "ungrouped")
      (build_full_inventory
        [(⟨"n1", "ungrouped", [("lan", "10.0.0.0")], none⟩, [])] "lan")
      = .ok (some ⟨["n1"], []⟩) ∧
    some (⟨["n1"], []⟩ : InvGroup) ≠ some (⟨[], []⟩ : InvGroup) :=
  ⟨by decide, by decide⟩

/-- C8 (amended): `ungrouped` is present (and empty) in the inventory from
construction on, and stays empty after a full build provided no group name
the build adds — datacenter, metadata-derived (the key, or `key_value`),
service, or `service_tag` — sanitizes to `ungrouped`. -/
theorem C8_ungrouped_amended (nodes : List (Node × Dict (List String))) (ta : String)
    (h : ∀ x ∈ nodes,
      sanitize x.1.datacenter ≠ "ungrouped" ∧
      (∀ kv ∈ x.1.metaD, sanitize kv.1 ≠ "ungrouped" ∧
        sanitize (kv.1 ++ "_" ++ kv.2) ≠ "ungrouped") ∧
      (∀ svc ∈ x.2, sanitize svc.1 ≠ "ungrouped" ∧
        ∀ tag ∈ svc.2, sanitize (sanitize svc.1 ++ "_" ++ tag) ≠ "ungrouped")) :
    dictGet? emptyInventory.groups "ungrouped" = some ⟨[], []⟩ ∧
    ∀ inv, build_full_inventory nodes ta = .ok inv →
      dictGet? inv.groups "ungrouped" = some ⟨[], []⟩ := by
  refine ⟨by decide, ?_⟩
  intro inv hok
  obtain ⟨invp, hfold, rfl⟩ := build_ok_parts nodes ta inv hok
  have hP : dictGet? invp.groups "ungrouped" = some ⟨[], []⟩ := by
    refine buildFold_groups_preserve
      (fun gs => dictGet? gs "ungrouped" = some ⟨[], []⟩) ta nodes ?_
      emptyInventory invp hfold (by decide)
    intro x hx gs gs' hPgs hpn
    refine processNodeGroups_preserve
      (fun gs => dictGet? gs "ungrouped" = some ⟨[], []⟩) x ?_ ?_ gs gs' hpn hPgs
    · intro group hg gsa gsb hPa hab
      have hgne : sanitize group ≠ "ungrouped" := by
        obtain ⟨hdc, hmeta, hsvc⟩ := h x hx
        rcases hg with rfl | ⟨kv, hkv, hmg⟩ | ⟨svc, hsvc', hcase⟩
        · exact hdc
        · rcases metaGroupName_cases kv.1 kv.2 group hmg with rfl | rfl
          · exact (hmeta kv hkv).1
          · exact (hmeta kv hkv).2
        · rcases hcase with rfl | ⟨tag, htag, rfl⟩
          · rw [sanitize_idem]
            exact (hsvc svc hsvc').1
          · exact (hsvc svc hsvc').2 tag htag
      rw [add_to_group_ok_lookup gsa group x.1.name gsb hab "ungrouped",
        if_neg (fun hh => hgne hh.symm)]
      exact hPa
    · intro svc hsvc' tag htag gsa hPa
      have hsne : ¬("ungrouped" = sanitize svc.1) :=
        fun hh => ((h x hx).2.2 svc hsvc').1 hh.symm
      rw [registerChild_lookup, hPa]
      simp [hsne]
  rw [finalize_lookup, hP]
  simp [show ¬("ungrouped" = "all") from by decide]

/-- Witness for C8 (amended) on an ordinary input. -/
theorem C8_witness :
    (build_full_inventory
        [(⟨"n1", "dc1", [("lan", "10.0.0.0")], some [("role", "db")]⟩,
          [("web", ["x"])])] "lan").toOption.isSome = true ∧
    (dictGet? emptyInventory.groups "ungrouped" = some ⟨[], []⟩ ∧
     ∀ inv, build_full_inventory
        [(⟨"n1", "dc1", [("lan", "10.0.0.0")], some [("role", "db")]⟩,
          [("web", ["x"])])] "lan" = .ok inv →
       dictGet? inv.groups "ungrouped" = some ⟨[], []⟩) :=
  ⟨by decide, C8_ungrouped_amended _ "lan" (by decide)⟩

/-! ### Claim C4 -/

/-- C4 as stated is falsified by a service whose (sanitized) name is
`all`: its tag child `all_x` is appended to `all.children` during the node
loop and again by the final extension over all group keys, so `all_x`
appears twice while the sorted key list holds it once. -/
theorem C4_counterexample :
    Except.map (fun inv => (dictGet? inv.groups "all").map InvGroup.children)
      (build_full_inventory
        [(⟨"n1", "dc1", [("lan", "10.0.0.0")], none⟩, [("all", ["x"])])] "lan")
      = .ok (some ["all_x", "all_x", "dc1", "ungrouped"]) ∧
    Except.map (fun inv => sortStrings ("ungrouped" ::
        (inv.groups.map Prod.fst).filter
          (fun k => !(["_meta", "all", "ungrouped"].contains k))))
      (build_full_inventory
        [(⟨"n1", "dc1", [("lan", "10.0.0.0")], none⟩, [("all", ["x"])])] "lan")
      = .ok ["all_x", "dc1", "ungrouped"] ∧
    (["all_x", "all_x", "dc1", "ungrouped"] : List String)
      ≠ ["all_x", "dc1", "ungrouped"] :=
  ⟨by decide, by decide, by decide⟩

/-- C4 (amended): provided no service name sanitizes to `all` (the only way
`all.children` can grow during the node loop), after the full build
`all.children` equals the lexicographically sorted sequence of every group
key except `_meta`, `all` and `ungrouped`, with `ungrouped` included in
the sorted result. -/
theorem C4_all_children_amended (nodes : List (Node × Dict (List String)))
    (ta : String) (h : ∀ x ∈ nodes, ∀ svc ∈ x.2, sanitize svc.1 ≠ "all") :
    ∀ inv, build_full_inventory nodes ta = .ok inv →
      ∃ grp, dictGet? inv.groups "all" = some grp ∧
        grp.children = sortStrings ("ungrouped" ::
          (inv.groups.map Prod.fst).filter
            (fun k => !(["_meta", "all", "ungrouped"].contains k))) := by
  intro inv hok
  obtain ⟨invp, hfold, rfl⟩ := build_ok_parts nodes ta inv hok
  have hP : ∃ hosts, dictGet? invp.groups "all" = some ⟨hosts, ["ungrouped"]⟩ := by
    refine buildFold_groups_preserve
      (fun gs => ∃ hosts, dictGet? gs "all" = some ⟨hosts, ["ungrouped"]⟩)
      ta nodes ?_ emptyInventory invp hfold ⟨[], by decide⟩
    intro x hx gs gs' hPgs hpn
    refine processNodeGroups_preserve
      (fun gs => ∃ hosts, dictGet? gs "all" = some ⟨hosts, ["ungrouped"]⟩)
      x ?_ ?_ gs gs' hpn hPgs
    · rintro group _ gsa gsb ⟨hosts, hPa⟩ hab
      rw [add_to_group_ok_lookup gsa group x.1.name gsb hab "all"]
      by_cases hk : "all" = sanitize group
      · rw [if_pos hk, hPa]
        exact ⟨hosts ++ [x.1.name], rfl⟩
      · rw [if_neg hk]
        exact ⟨hosts, hPa⟩
    · rintro svc hsvc tag htag gsa ⟨hosts, hPa⟩
      have hne : ¬("all" = sanitize svc.1) := fun hh => (h x hx svc hsvc) hh.symm
      rw [registerChild_lookup, hPa]
      exact ⟨hosts, by simp [hne]⟩
  obtain ⟨hosts, hPa⟩ := hP
  rw [finalize_lookup, hPa]
  refine ⟨⟨hosts, sortStrings (["ungrouped"] ++ all_groups_keys invp.groups)⟩,
    by simp, ?_⟩
  show sortStrings (["ungrouped"] ++ all_groups_keys invp.groups)
    = sortStrings ("ungrouped" ::
        ((finalizeInventory invp).groups.map Prod.fst).filter
          (fun k => !(["_meta", "all", "ungrouped"].contains k)))
  rw [finalize_keys]
  rfl

/-- Witness for C4 (amended) on an ordinary input. -/
theorem C4_witness :
    (build_full_inventory
        [(⟨"n1", "dc1", [("lan", "10.0.0.0")], none⟩, [("web", ["x"])])]
        "lan").toOption.isSome = true ∧
    ∀ inv, build_full_inventory
        [(⟨"n1", "dc1", [("lan", "10.0.0.0")], none⟩, [("web", ["x"])])] "lan"
      = .ok inv →
      ∃ grp, dictGet? inv.groups "all" = some grp ∧
        grp.children = sortStrings ("ungrouped" ::
          (inv.groups.map Prod.fst).filter
            (fun k => !(["_meta", "all", "ungrouped"].contains k))) :=
  ⟨by decide, C4_all_children_amended _ "lan" (by decide)⟩

/-! ### Hosts-membership monotonicity (for claim C2) -/

lemma mem_hosts_add_mono (key hostname group host : String)
    (gs gs' : Dict InvGroup)
    (hP : ∃ grp, dictGet? gs key = some grp ∧ hostname ∈ grp.hosts)
    (hok : add_to_group gs group host = .ok gs') :
    ∃ grp, dictGet? gs' key = some grp ∧ hostname ∈ grp.hosts := by
  obtain ⟨grp, hgrp, hm⟩ := hP
  rw [add_to_group_ok_lookup gs group host gs' hok key]
  by_cases hk : key = sanitize group
  · rw [if_pos hk, hgrp]
    exact ⟨_, rfl, List.mem_append_left _ hm⟩
  · rw [if_neg hk]
    exact ⟨grp, hgrp, hm⟩

lemma mem_hosts_reg_mono (key hostname s c : String) (gs : Dict InvGroup)
    (hP : ∃ grp, dictGet? gs key = some grp ∧ hostname ∈ grp.hosts) :
    ∃ grp, dictGet? (registerChild gs s c) key = some grp ∧
      hostname ∈ grp.hosts := by
  obtain ⟨grp, hgrp, hm⟩ := hP
  rw [registerChild_lookup, hgrp]
  refine ⟨_, rfl, ?_⟩
  by_cases hk : key = s
  · by_cases hc : c ∈ grp.children <;> simp [hk, hc, hm]
  · simp [hk, hm]

lemma mem_hosts_node_mono (key hostname : String)
    (x : Node × Dict (List String)) :
    ∀ gs gs',
      (∃ grp, dictGet? gs key = some grp ∧ hostname ∈ grp.hosts) →
      processNodeGroups x gs = .ok gs' →
      ∃ grp, dictGet? gs' key = some grp ∧ hostname ∈ grp.hosts := by
  intro gs gs' hP hok
  refine processNodeGroups_preserve
    (fun gs => ∃ grp, dictGet? gs key = some grp ∧ hostname ∈ grp.hosts) x
    ?_ ?_ gs gs' hok hP
  · intro group _ gsa gsb hPa hab
    exact mem_hosts_add_mono key hostname group x.1.name gsa gsb hPa hab
  · intro svc _ tag _ gsa hPa
    exact mem_hosts_reg_mono key hostname _ _ gsa hPa

lemma add_to_group_establishes (gs : Dict InvGroup) (group host : String)
    (gs' : Dict InvGroup) (hok : add_to_group gs group host = .ok gs') :
    ∃ grp, dictGet? gs' (sanitize group) = some grp ∧ host ∈ grp.hosts := by
  rw [add_to_group_ok_lookup gs group host gs' hok (sanitize group), if_pos rfl]
  cases hq : dictGet? gs (sanitize group) with
  | some grp => exact ⟨_, rfl, by simp⟩
  | none => exact ⟨_, rfl, by simp⟩

lemma meta_step_mem_mono (key hostname name : String) (kv : String × String)
    (c c' : Dict InvGroup)
    (hP : ∃ grp, dictGet? c key = some grp ∧ hostname ∈ grp.hosts)
    (hstep : metaGroupStep name c kv = .ok c') :
    ∃ grp, dictGet? c' key = some grp ∧ hostname ∈ grp.hosts := by
  unfold metaGroupStep at hstep
  by_cases hv : kv.2 = ""
  · rw [if_pos hv] at hstep
    cases Except.ok.inj hstep
    exact hP
  · rw [if_neg hv] at hstep
    cases hmg : metaGroupName kv.1 kv.2 with
    | none => rw [hmg] at hstep; cases Except.ok.inj hstep; exact hP
    | some g =>
      rw [hmg] at hstep
      exact mem_hosts_add_mono key hostname g name c c' hP hstep

/-- During one node's group mutations, a metadata pair that derives group
`g` really adds the node to the (sanitized) group `g`, and membership then
persists until the end of that node's processing. -/
lemma processNodeGroups_establishes (x : Node × Dict (List String))
    (gs gs' : Dict InvGroup) (hok : processNodeGroups x gs = .ok gs')
    (k v g : String) (hmem : (k, v) ∈ x.1.metaD) (hv : v ≠ "")
    (hg : metaGroupName k v = some g) :
    ∃ grp, dictGet? gs' (sanitize g) = some grp ∧ x.1.name ∈ grp.hosts := by
  unfold processNodeGroups at hok
  obtain ⟨gs1, hdc, hok⟩ := bind_ok_decomp hok
  obtain ⟨gs2, hmetaf, hsvcf⟩ := bind_ok_decomp hok
  obtain ⟨l₁, l₂, hsplit⟩ := List.append_of_mem hmem
  rw [hsplit, List.foldlM_append] at hmetaf
  obtain ⟨a, hfold1, hrest⟩ := bind_ok_decomp hmetaf
  obtain ⟨b, hstep, hfold2⟩ := foldlM_ok_cons hrest
  have hstep' : add_to_group a g x.1.name = .ok b := by
    have h1 : (if v = "" then (pure a : Except BuildError (Dict InvGroup))
        else match metaGroupName k v with
          | none => pure a
          | some gg => add_to_group a gg x.1.name) = .ok b := hstep
    rw [if_neg hv, hg] at h1
    exact h1
  have hPb := add_to_group_establishes a g x.1.name b hstep'
  have hP2 : ∃ grp, dictGet? gs2 (sanitize g) = some grp ∧ x.1.name ∈ grp.hosts := by
    refine foldlM_ok_preserve (metaGroupStep x.1.name)
      (fun c => ∃ grp, dictGet? c (sanitize g) = some grp ∧ x.1.name ∈ grp.hosts)
      l₂ ?_ b gs2 hfold2 hPb
    intro kv _ c c' hPc hstep2
    exact meta_step_mem_mono (sanitize g) x.1.name x.1.name kv c c' hPc hstep2
  refine foldlM_ok_preserve (processService x.1.name)
    (fun c => ∃ grp, dictGet? c (sanitize g) = some grp ∧ x.1.name ∈ grp.hosts)
    x.2 ?_ gs2 gs' hsvcf hP2
  intro svc _ b1 b2 hPb1 hstep2
  exact processService_preserve
    (fun c => ∃ grp, dictGet? c (sanitize g) = some grp ∧ x.1.name ∈ grp.hosts)
    x.1.name svc
    (fun group _ gsa gsb hPa hab =>
      mem_hosts_add_mono _ _ group x.1.name gsa gsb hPa hab)
    (fun tag _ gsa hPa => mem_hosts_reg_mono _ _ _ _ gsa hPa)
    b1 b2 hstep2 hPb1

/-- In a successful full build, a node one of whose metadata pairs derives
group `g` is a member of the (sanitized) group `g` in the final tree. -/
lemma build_meta_group_member (ns₁ ns₂ : List (Node × Dict (List String)))
    (n : Node) (svcs : Dict (List String)) (ta k v g : String)
    (hmem : (k, v) ∈ n.metaD) (hv : v ≠ "") (hg : metaGroupName k v = some g) :
    ∀ inv, build_full_inventory (ns₁ ++ (n, svcs) :: ns₂) ta = .ok inv →
      ∃ grp, dictGet? inv.groups (sanitize g) = some grp ∧ n.name ∈ grp.hosts := by
  intro inv hok
  obtain ⟨invp, hfold, rfl⟩ := build_ok_parts _ _ _ hok
  rw [List.foldlM_append] at hfold
  obtain ⟨inv1, hfold1, hrest⟩ := bind_ok_decomp hfold
  obtain ⟨inv2, hn, hfold2⟩ := foldlM_ok_cons hrest
  obtain ⟨vars, gs2, _, hpg, rfl⟩ := processNode_ok_parts ta inv1 (n, svcs) inv2 hn
  have hest := processNodeGroups_establishes (n, svcs) inv1.groups gs2 hpg k v g
    hmem hv hg
  have hP : ∃ grp, dictGet? invp.groups (sanitize g) = some grp ∧
      n.name ∈ grp.hosts := by
    refine buildFold_groups_preserve
      (fun gs => ∃ grp, dictGet? gs (sanitize g) = some grp ∧ n.name ∈ grp.hosts)
      ta ns₂ ?_ _ invp hfold2 hest
    intro x _ gsa gsb hPa hab
    exact mem_hosts_node_mono _ _ x gsa gsb hPa hab
  obtain ⟨grp, hgrp, hm⟩ := hP
  rw [finalize_lookup, hgrp]
  refine ⟨_, rfl, ?_⟩
  by_cases hk : sanitize g = "all" <;> simp [hk, hm]

/-! ### The `False`-shaped metadata pair contributes nothing (claim C2) -/

lemma meta_fold_skip_false (name k v : String) (m₁ m₂ : Dict String)
    (hv : v ≠ "") (hfalse : str2bool? (pyStrip v) = some false) :
    ∀ gs1 : Dict InvGroup,
      (m₁ ++ (k, v) :: m₂).foldlM (metaGroupStep name) gs1
        = (m₁ ++ m₂).foldlM (metaGroupStep name) gs1 := by
  intro gs1
  rw [List.foldlM_append, List.foldlM_append]
  have hcont : ∀ a : Dict InvGroup,
      ((k, v) :: m₂).foldlM (metaGroupStep name) a
        = m₂.foldlM (metaGroupStep name) a := by
    intro a
    rw [List.foldlM_cons]
    have hstep : metaGroupStep name a (k, v) = pure a := by
      unfold metaGroupStep
      have hmg : metaGroupName k v = none := by
        unfold metaGroupName
        rw [hfalse]
      rw [if_neg hv, hmg]
    rw [hstep, pure_bind]
  have hfn : (fun a => ((k, v) :: m₂).foldlM (metaGroupStep name) a)
      = fun a => m₂.foldlM (metaGroupStep name) a := funext hcont
  show (m₁.foldlM (metaGroupStep name) gs1 >>=
      fun a => ((k, v) :: m₂).foldlM (metaGroupStep name) a)
    = (m₁.foldlM (metaGroupStep name) gs1 >>=
      fun a => m₂.foldlM (metaGroupStep name) a)
  rw [hfn]

lemma processNodeGroups_skip_false (n : Node) (svcs : Dict (List String))
    (m₁ m₂ : Dict String) (k v : String)
    (hmeta : n.meta = some (m₁ ++ (k, v) :: m₂)) (hv : v ≠ "")
    (hfalse : str2bool? (pyStrip v) = some false) (gs : Dict InvGroup) :
    processNodeGroups (n, svcs) gs
      = processNodeGroups ({n with meta := some (m₁ ++ m₂)}, svcs) gs := by
  obtain ⟨nm, dc, addrs, mm⟩ := n
  have hmeta' : mm = some (m₁ ++ (k, v) :: m₂) := hmeta
  subst hmeta'
  show (add_to_group gs dc nm >>= fun gs =>
      (m₁ ++ (k, v) :: m₂).foldlM (metaGroupStep nm) gs >>= fun gs =>
        svcs.foldlM (processService nm) gs)
    = (add_to_group gs dc nm >>= fun gs =>
      (m₁ ++ m₂).foldlM (metaGroupStep nm) gs >>= fun gs =>
        svcs.foldlM (processService nm) gs)
  have hfn : (fun gs => (m₁ ++ (k, v) :: m₂).foldlM (metaGroupStep nm) gs >>=
        fun gs => svcs.foldlM (processService nm) gs)
      = fun gs => (m₁ ++ m₂).foldlM (metaGroupStep nm) gs >>=
        fun gs => svcs.foldlM (processService nm) gs := by
    funext gs1
    rw [meta_fold_skip_false nm k v m₁ m₂ hv hfalse gs1]
  rw [hfn]

lemma get_node_vars_some (n : Node) (ta addr : String)
    (h : dictGet? n.taggedAddresses ta = some addr) :
    get_node_vars n ta = some (n.metaD.foldl metaVarsStep
      [("ansible_host", .str addr), ("datacenter", .str n.datacenter)]) := by
  unfold get_node_vars
  rw [h]

lemma finalize_groups_congr (a b : Inventory) (h : a.groups = b.groups) :
    (finalizeInventory a).groups = (finalizeInventory b).groups := by
  show a.groups.map (fun p =>
      if p.1 = "all" then
        (p.1, ⟨p.2.hosts, sortStrings (p.2.children ++ all_groups_keys a.groups)⟩)
      else p)
    = b.groups.map (fun p =>
      if p.1 = "all" then
        (p.1, ⟨p.2.hosts, sortStrings (p.2.children ++ all_groups_keys b.groups)⟩)
      else p)
  rw [h]


lemma processNode_none (ta : String) (inv : Inventory)
    (x : Node × Dict (List String)) (hv : get_node_vars x.1 ta = none) :
    processNode ta inv x = .error (.missingAddress x.1.name ta) := by
  unfold processNode
  rw [hv]

lemma processNode_eq_of_vars (ta : String) (inv : Inventory)
    (x : Node × Dict (List String)) (vars : Dict PyVal)
    (hv : get_node_vars x.1 ta = some vars) :
    processNode ta inv x = (processNodeGroups x inv.groups).map
      (fun gs => ⟨dictSet inv.hostvars x.1.name vars, gs⟩) := by
  unfold processNode
  rw [hv]

/-- The groups component of the node loop depends only on the groups
component of the running inventory (hostvars never feed back). -/
lemma foldlM_groups_congr (ta : String) (l : List (Node × Dict (List String))) :
    ∀ inv j : Inventory, inv.groups = j.groups →
      Except.map Inventory.groups (l.foldlM (processNode ta) inv)
        = Except.map Inventory.groups (l.foldlM (processNode ta) j) := by
  induction l with
  | nil =>
    intro inv j h
    rw [List.foldlM_nil, List.foldlM_nil]
    show Except.ok inv.groups = Except.ok j.groups
    rw [h]
  | cons x xs ih =>
    intro inv j h
    rw [List.foldlM_cons, List.foldlM_cons]
    cases hv : get_node_vars x.1 ta with
    | none =>
      rw [processNode_none ta inv x hv, processNode_none ta j x hv, error_bind]
    | some vars =>
      rw [processNode_eq_of_vars ta inv x vars hv,
        processNode_eq_of_vars ta j x vars hv, h]
      cases hres : processNodeGroups x j.groups with
      | error e => rw [error_map, error_map, error_bind]
      | ok gs =>
        rw [ok_map, ok_map, ok_bind, ok_bind]
        exact ih ⟨dictSet inv.hostvars x.1.name vars, gs⟩
          ⟨dictSet j.hostvars x.1.name vars, gs⟩ rfl

/-- Erasing a `False`-shaped metadata pair from a node changes nothing in
the groups component of the whole build (hostvars may differ). -/
lemma build_groups_skip_false (ns₁ ns₂ : List (Node × Dict (List String)))
    (n : Node) (svcs : Dict (List String)) (m₁ m₂ : Dict String)
    (k v ta : String) (hmeta : n.meta = some (m₁ ++ (k, v) :: m₂))
    (hv : v ≠ "") (hfalse : str2bool? (pyStrip v) = some false) :
    Except.map Inventory.groups
        (build_full_inventory (ns₁ ++ (n, svcs) :: ns₂) ta)
      = Except.map Inventory.groups
          (build_full_inventory
            (ns₁ ++ ({n with meta := some (m₁ ++ m₂)}, svcs) :: ns₂) ta) := by
  have hsim : Except.map Inventory.groups
      ((ns₁ ++ (n, svcs) :: ns₂).foldlM (processNode ta) emptyInventory)
    = Except.map Inventory.groups
      ((ns₁ ++ ({n with meta := some (m₁ ++ m₂)}, svcs) :: ns₂).foldlM
        (processNode ta) emptyInventory) := by
    rw [List.foldlM_append, List.foldlM_append]
    cases h1 : ns₁.foldlM (processNode ta) emptyInventory with
    | error e => rw [error_bind, error_bind]
    | ok inv1 =>
      rw [ok_bind, ok_bind, List.foldlM_cons, List.foldlM_cons]
      cases ha : dictGet? n.taggedAddresses ta with
      | none =>
        rw [processNode_none ta inv1 (n, svcs) (get_node_vars_none n ta ha),
          processNode_none ta inv1 ({n with meta := some (m₁ ++ m₂)}, svcs)
            (get_node_vars_none _ ta
              (show dictGet? ({n with meta := some (m₁ ++ m₂)} : Node).taggedAddresses
                  ta = none from ha)),
          error_bind]
      | some addr =>
        rw [processNode_eq_of_vars ta inv1 (n, svcs) _
            (get_node_vars_some n ta addr ha),
          processNode_eq_of_vars ta inv1 ({n with meta := some (m₁ ++ m₂)}, svcs) _
            (get_node_vars_some {n with meta := some (m₁ ++ m₂)} ta addr
              (show dictGet? ({n with meta := some (m₁ ++ m₂)} : Node).taggedAddresses
                  ta = some addr from ha)),
          ← processNodeGroups_skip_false n svcs m₁ m₂ k v hmeta hv hfalse
            inv1.groups]
        cases hres : processNodeGroups (n, svcs) inv1.groups with
        | error e => rw [error_map, error_map, error_bind]
        | ok gs =>
          rw [ok_map, ok_map, ok_bind, ok_bind]
          exact foldlM_groups_congr ta ns₂ _ _ rfl
  unfold build_full_inventory
  cases hx : (ns₁ ++ (n, svcs) :: ns₂).foldlM (processNode ta) emptyInventory with
  | error e =>
    rw [hx, error_map] at hsim
    cases hy : (ns₁ ++ ({n with meta := some (m₁ ++ m₂)}, svcs) :: ns₂).foldlM
        (processNode ta) emptyInventory with
    | error e' =>
      rw [hy, error_map] at hsim
      cases Except.error.inj hsim
      rfl
    | ok b => rw [hy, ok_map] at hsim; cases hsim
  | ok a =>
    rw [hx, ok_map] at hsim
    cases hy : (ns₁ ++ ({n with meta := some (m₁ ++ m₂)}, svcs) :: ns₂).foldlM
        (processNode ta) emptyInventory with
    | error e => rw [hy, error_map] at hsim; cases hsim
    | ok b =>
      rw [hy, ok_map] at hsim
      rw [ok_map, ok_map]
      show Except.ok (finalizeInventory a).groups
        = Except.ok (finalizeInventory b).groups
      rw [finalize_groups_congr a b (Except.ok.inj hsim)]

/-! ### Claim C2 -/

/-- C2 as stated is falsified because `str2bool` also treats `1`/`yes`
(and `0`/`no`) as booleans: with metadata `{"k": "yes"}` — not a
case-insensitive `true`/`false`, hence "any other value" per the claim —
the node lands in group `k` and no group `k_yes` exists at all. -/
theorem C2_counterexample :
    Except.map (fun inv => dictGet? inv.groups "k_yes")
      (build_full_inventory
        [(⟨"n1", "dc1", [("lan", "10.0.0.0")], some [("k", "yes")]⟩, [])] "lan")
      = .ok none ∧
    Except.map (fun inv => (dictGet? inv.groups "k").map InvGroup.hosts)
      (build_full_inventory
        [(⟨"n1", "dc1", [("lan", "10.0.0.0")], some [("k", "yes")]⟩, [])] "lan")
      = .ok (some ["n1"]) ∧
    sanitize "k_yes" = "k_yes" :=
  ⟨by decide, by decide, by decide⟩

/-- C2 (amended): for every node and metadata pair `(k, v)` with non-empty
value, where the boolean shapes are those of `str2bool` applied to the
stripped value — case-insensitive `true`/`1`/`yes` for true and
`false`/`0`/`no` for false: a true shape puts the node in the group named
the (sanitized) key; a false shape produces no group (erasing the pair
leaves the whole groups tree unchanged); any other value puts the node in
the (sanitized) group `key_value` built with the original value. -/
theorem C2_meta_grouping_amended
    (ns₁ ns₂ : List (Node × Dict (List String))) (n : Node)
    (svcs : Dict (List String)) (m₁ m₂ : Dict String) (k v ta : String)
    (hmeta : n.meta = some (m₁ ++ (k, v) :: m₂)) (hv : v ≠ "") :
    (str2bool? (pyStrip v) = some true →
      ∀ inv, build_full_inventory (ns₁ ++ (n, svcs) :: ns₂) ta = .ok inv →
        ∃ grp, dictGet? inv.groups (sanitize k) = some grp ∧
          n.name ∈ grp.hosts) ∧
    (str2bool? (pyStrip v) = none →
      ∀ inv, build_full_inventory (ns₁ ++ (n, svcs) :: ns₂) ta = .ok inv →
        ∃ grp, dictGet? inv.groups (sanitize (k ++ "_" ++ v)) = some grp ∧
          n.name ∈ grp.hosts) ∧
    (str2bool? (pyStrip v) = some false →
      Except.map Inventory.groups
          (build_full_inventory (ns₁ ++ (n, svcs) :: ns₂) ta)
        = Except.map Inventory.groups
            (build_full_inventory
              (ns₁ ++ ({n with meta := some (m₁ ++ m₂)}, svcs) :: ns₂) ta)) := by
  have hmem : (k, v) ∈ n.metaD := by
    unfold Node.metaD
    rw [hmeta]
    exact List.mem_append_right _ (List.mem_cons_self _ _)
  refine ⟨?_, ?_, ?_⟩
  · intro htrue
    have hg : metaGroupName k v = some k := by
      unfold metaGroupName
      rw [htrue]
    exact build_meta_group_member ns₁ ns₂ n svcs ta k v k hmem hv hg
  · intro hnone
    have hg : metaGroupName k v = some (k ++ "_" ++ v) := by
      unfold metaGroupName
      rw [hnone]
    exact build_meta_group_member ns₁ ns₂ n svcs ta k v (k ++ "_" ++ v) hmem hv hg
  · intro hfalse
    exact build_groups_skip_false ns₁ ns₂ n svcs m₁ m₂ k v ta hmeta hv hfalse

/-- Witness for C2 (amended): a `true`-shaped pair really creates
membership in the key-named group. -/
theorem C2_witness :
    (build_full_inventory
        [(⟨"n1", "dc1", [("lan", "10.0.0.0")], some [("flag", "true")]⟩, [])]
        "lan").toOption.isSome = true ∧
    (str2bool? (pyStrip "true") = some true →
      ∀ inv, build_full_inventory
          [(⟨"n1", "dc1", [("lan", "10.0.0.0")], some [("flag", "true")]⟩, [])]
          "lan" = .ok inv →
        ∃ grp, dictGet? inv.groups (sanitize "flag") = some grp ∧
          "n1" ∈ grp.hosts) :=
  ⟨by decide,
   (C2_meta_grouping_amended [] []
      ⟨"n1", "dc1", [("lan", "10.0.0.0")], some [("flag", "true")]⟩
      [] [] [] "flag" "true" "lan" rfl (by decide)).1⟩

/-! ### Entry-shape lemmas (for claim C5) -/

lemma mem_map_modAt (mod : InvGroup → InvGroup) (gs : Dict InvGroup) (g : String)
    (p' : String × InvGroup)
    (h : p' ∈ gs.map (fun p => if p.1 = g then (p.1, mod p.2) else p)) :
    ∃ p ∈ gs, p' = if p.1 = g then (p.1, mod p.2) else p := by
  obtain ⟨p, hp, hfp⟩ := List.mem_map.1 h
  exact ⟨p, hp, hfp.symm⟩

lemma add_to_group_ok_entry_shape (gs : Dict InvGroup) (group host : String)
    (gs' : Dict InvGroup) (hok : add_to_group gs group host = .ok gs')
    (p' : String × InvGroup) (hp' : p' ∈ gs') :
    (∃ p ∈ gs, p'.1 = p.1 ∧
      (p'.2.hosts = p.2.hosts ∨ p'.2.hosts = p.2.hosts ++ [host]) ∧
      p'.2.children = p.2.children) ∨
    (p'.1 = sanitize group ∧ p'.2.hosts = [host] ∧ p'.2.children = []) := by
  unfold add_to_group at hok
  by_cases hm : sanitize group = "_meta"
  · rw [if_pos hm] at hok
    cases hok
  · rw [if_neg hm] at hok
    cases Except.ok.inj hok
    by_cases hs : (dictGet? gs (sanitize group)).isSome
    · rw [if_pos hs] at hp'
      obtain ⟨p, hp, hform⟩ := mem_map_modAt
        (fun grp => ⟨grp.hosts ++ [host], grp.children⟩) gs (sanitize group) p' hp'
      by_cases hpg : p.1 = sanitize group
      · rw [if_pos hpg] at hform
        subst hform
        exact Or.inl ⟨p, hp, rfl, Or.inr rfl, rfl⟩
      · rw [if_neg hpg] at hform
        subst hform
        exact Or.inl ⟨p', hp, rfl, Or.inl rfl, rfl⟩
    · rw [if_neg hs] at hp'
      obtain ⟨p, hp, hform⟩ := mem_map_modAt
        (fun grp => ⟨grp.hosts ++ [host], grp.children⟩)
        (gs ++ [(sanitize group, ⟨[], []⟩)]) (sanitize group) p' hp'
      rcases List.mem_append.1 hp with hp | hp
      · by_cases hpg : p.1 = sanitize group
        · rw [if_pos hpg] at hform
          subst hform
          exact Or.inl ⟨p, hp, rfl, Or.inr rfl, rfl⟩
        · rw [if_neg hpg] at hform
          subst hform
          exact Or.inl ⟨p', hp, rfl, Or.inl rfl, rfl⟩
      · have hpe : p = (sanitize group, ⟨[], []⟩) := List.mem_singleton.1 hp
        subst hpe
        rw [if_pos rfl] at hform
        subst hform
        exact Or.inr ⟨rfl, by simp, rfl⟩

lemma registerChild_entry_shape (gs : Dict InvGroup) (s c : String)
    (p' : String × InvGroup) (hp' : p' ∈ registerChild gs s c) :
    ∃ p ∈ gs, p'.1 = p.1 ∧ p'.2.hosts = p.2.hosts ∧
      (p'.2.children = p.2.children ∨
        (p.1 = s ∧ p'.2.children = p.2.children ++ [c])) := by
  obtain ⟨p, hp, hform⟩ := mem_map_modAt
    (fun grp => if c ∈ grp.children then grp else ⟨grp.hosts, grp.children ++ [c]⟩)
    gs s p' hp'
  by_cases hpg : p.1 = s
  · rw [if_pos hpg] at hform
    by_cases hc : c ∈ p.2.children
    · rw [if_pos hc] at hform
      subst hform
      exact ⟨p, hp, rfl, rfl, Or.inl rfl⟩
    · rw [if_neg hc] at hform
      subst hform
      exact ⟨p, hp, rfl, rfl, Or.inr ⟨hpg, rfl⟩⟩
  · rw [if_neg hpg] at hform
    subst hform
    exact ⟨p', hp, rfl, rfl, Or.inl rfl⟩

lemma finalize_entry_shape (inv : Inventory) (p' : String × InvGroup)
    (hp' : p' ∈ (finalizeInventory inv).groups) :
    ∃ p ∈ inv.groups, p'.1 = p.1 ∧ p'.2.hosts = p.2.hosts ∧
      (p'.2.children = p.2.children ∨ p.1 = "all") := by
  obtain ⟨p, hp, hform⟩ := mem_map_modAt
    (fun grp => ⟨grp.hosts, sortStrings (grp.children ++ all_groups_keys inv.groups)⟩)
    inv.groups "all" p' hp'
  by_cases hpg : p.1 = "all"
  · rw [if_pos hpg] at hform
    subst hform
    exact ⟨p, hp, rfl, rfl, Or.inr hpg⟩
  · rw [if_neg hpg] at hform
    subst hform
    exact ⟨p', hp, rfl, rfl, Or.inl rfl⟩

/-! ### Claim C5 -/

/-- C5 as stated is falsified by a tag containing a non-alphanumeric
character: service `a` with tag `b-c` creates the (sanitized) group key
`a_b_c`, but the membership reference stored in `a`'s children list is the
unsanitized `a_b-c` (line 97 uses the raw tag), which matches no
inventory key. -/
theorem C5_counterexample :
    Except.map (fun inv => (dictGet? inv.groups "a").map InvGroup.children)
      (build_full_inventory
        [(⟨"n1", "dc1", [("lan", "10.0.0.0")], none⟩, [("a", ["b-c"])])] "lan")
      = .ok (some ["a_b-c"]) ∧
    Except.map (fun inv => dictGet? inv.groups "a_b-c")
      (build_full_inventory
        [(⟨"n1", "dc1", [("lan", "10.0.0.0")], none⟩, [("a", ["b-c"])])] "lan")
      = .ok none ∧
    sanitize "a_b-c" ≠ "a_b-c" :=
  ⟨by decide, by decide, by decide⟩

/-- C5 (amended): every inventory key is sanitized (a fixed point of
`sanitize`); every children entry of a non-`all` group is
`sanitize(service) ++ "_" ++ tag` with the raw tag of an input service
(so it is unsanitized whenever the tag holds a non-alphanumeric);
sanitization is never applied to host identifiers: every host entry and
every `_meta.hostvars` key is verbatim a node name from the input. -/
theorem C5_sanitization_amended (nodes : List (Node × Dict (List String)))
    (ta : String) (inv : Inventory)
    (hok : build_full_inventory nodes ta = .ok inv) :
    (∀ key ∈ inv.groups.map Prod.fst, sanitize key = key) ∧
    (∀ p ∈ inv.groups, ∀ h ∈ p.2.hosts, ∃ x ∈ nodes, h = x.1.name) ∧
    (∀ p ∈ inv.groups, p.1 ≠ "all" → ∀ c ∈ p.2.children,
      ∃ x ∈ nodes, ∃ svc ∈ x.2, ∃ tag ∈ svc.2,
        c = sanitize svc.1 ++ "_" ++ tag) ∧
    (∀ p ∈ inv.hostvars, ∃ x ∈ nodes, p.1 = x.1.name) := by
  obtain ⟨invp, hfold, rfl⟩ := build_ok_parts nodes ta inv hok
  refine ⟨?_, ?_, ?_, ?_⟩
  · have hP : ∀ key ∈ invp.groups.map Prod.fst, sanitize key = key := by
      refine buildFold_groups_preserve
        (fun gs => ∀ key ∈ gs.map Prod.fst, sanitize key = key) ta nodes ?_
        emptyInventory invp hfold (by decide)
      intro x _ gs gs' hPgs hpn
      refine processNodeGroups_preserve
        (fun gs => ∀ key ∈ gs.map Prod.fst, sanitize key = key) x ?_ ?_
        gs gs' hpn hPgs
      · intro group _ gsa gsb hPa hab
        rcases add_to_group_ok_keys gsa group x.1.name gsb hab with hkeys | hkeys
        · rw [hkeys]
          exact hPa
        · rw [hkeys]
          intro key hkey
          rcases List.mem_append.1 hkey with hkey | hkey
          · exact hPa key hkey
          · rw [List.mem_singleton.1 hkey]
            exact sanitize_idem group
      · intro svc _ tag _ gsa hPa
        rw [registerChild_keys]
        exact hPa
    rw [finalize_keys]
    exact hP
  · have hP : ∀ p ∈ invp.groups, ∀ h ∈ p.2.hosts, ∃ x ∈ nodes, h = x.1.name := by
      refine buildFold_groups_preserve
        (fun gs => ∀ p ∈ gs, ∀ h ∈ p.2.hosts, ∃ x ∈ nodes, h = x.1.name)
        ta nodes ?_ emptyInventory invp hfold ?_
      · intro x hx gs gs' hPgs hpn
        refine processNodeGroups_preserve
          (fun gs => ∀ p ∈ gs, ∀ h ∈ p.2.hosts, ∃ x ∈ nodes, h = x.1.name)
          x ?_ ?_ gs gs' hpn hPgs
        · intro group _ gsa gsb hPa hab p' hp' h hh
          rcases add_to_group_ok_entry_shape gsa group x.1.name gsb hab p' hp' with
            ⟨p, hp, _, hhosts, _⟩ | ⟨_, hhosts, _⟩
          · rcases hhosts with hhosts | hhosts
            · exact hPa p hp h (hhosts ▸ hh)
            · rw [hhosts] at hh
              rcases List.mem_append.1 hh with hh | hh
              · exact hPa p hp h hh
              · rw [List.mem_singleton.1 hh]
                exact ⟨x, hx, rfl⟩
          · rw [hhosts] at hh
            rw [List.mem_singleton.1 hh]
            exact ⟨x, hx, rfl⟩
        · intro svc _ tag _ gsa hPa p' hp' h hh
          obtain ⟨p, hp, _, hhosts, _⟩ := registerChild_entry_shape gsa _ _ p' hp'
          exact hPa p hp h (hhosts ▸ hh)
      · intro p hp h hh
        have hp2 : p = ("all", (⟨[], ["ungrouped"]⟩ : InvGroup)) ∨
            p = ("ungrouped", (⟨[], []⟩ : InvGroup)) := by
          rcases List.mem_cons.1 hp with h1 | h1
          · exact Or.inl h1
          · exact Or.inr (List.mem_singleton.1 h1)
        rcases hp2 with rfl | rfl <;> cases hh
    intro p' hp' h hh
    obtain ⟨p, hp, _, hhosts, _⟩ := finalize_entry_shape invp p' hp'
    exact hP p hp h (hhosts ▸ hh)
  · have hP : ∀ p ∈ invp.groups, p.1 ≠ "all" → ∀ c ∈ p.2.children,
        ∃ x ∈ nodes, ∃ svc ∈ x.2, ∃ tag ∈ svc.2,
          c = sanitize svc.1 ++ "_" ++ tag := by
      refine buildFold_groups_preserve
        (fun gs => ∀ p ∈ gs, p.1 ≠ "all" → ∀ c ∈ p.2.children,
          ∃ x ∈ nodes, ∃ svc ∈ x.2, ∃ tag ∈ svc.2,
            c = sanitize svc.1 ++ "_" ++ tag)
        ta nodes ?_ emptyInventory invp hfold ?_
      · intro x hx gs gs' hPgs hpn
        refine processNodeGroups_preserve
          (fun gs => ∀ p ∈ gs, p.1 ≠ "all" → ∀ c ∈ p.2.children,
            ∃ x ∈ nodes, ∃ svc ∈ x.2, ∃ tag ∈ svc.2,
              c = sanitize svc.1 ++ "_" ++ tag)
          x ?_ ?_ gs gs' hpn hPgs
        · intro group _ gsa gsb hPa hab p' hp' hne c hc
          rcases add_to_group_ok_entry_shape gsa group x.1.name gsb hab p' hp' with
            ⟨p, hp, hkey, _, hchild⟩ | ⟨_, _, hchild⟩
          · exact hPa p hp (hkey ▸ hne) c (hchild ▸ hc)
          · rw [hchild] at hc
            cases hc
        · intro svc hsvc tag htag gsa hPa p' hp' hne c hc
          obtain ⟨p, hp, hkey, _, hchild⟩ := registerChild_entry_shape gsa _ _ p' hp'
          rcases hchild with hchild | ⟨_, hchild⟩
          · exact hPa p hp (hkey ▸ hne) c (hchild ▸ hc)
          · rw [hchild] at hc
            rcases List.mem_append.1 hc with hc | hc
            · exact hPa p hp (hkey ▸ hne) c hc
            · rw [List.mem_singleton.1 hc]
              exact ⟨x, hx, svc, hsvc, tag, htag, rfl⟩
      · intro p hp hne c hc
        have hp2 : p = ("all", (⟨[], ["ungrouped"]⟩ : InvGroup)) ∨
            p = ("ungrouped", (⟨[], []⟩ : InvGroup)) := by
          rcases List.mem_cons.1 hp with h1 | h1
          · exact Or.inl h1
          · exact Or.inr (List.mem_singleton.1 h1)
        rcases hp2 with rfl | rfl
        · exact absurd rfl hne
        · cases hc
    intro p' hp' hne c hc
    obtain ⟨p, hp, hkey, _, hchild⟩ := finalize_entry_shape invp p' hp'
    rcases hchild with hchild | hchild
    · exact hP p hp (hkey ▸ hne) c (hchild ▸ hc)
    · exact absurd (hkey.trans hchild) hne
  · have hP : ∀ p ∈ invp.hostvars, ∃ x ∈ nodes, p.1 = x.1.name := by
      refine foldlM_ok_preserve (processNode ta)
        (fun j => ∀ p ∈ j.hostvars, ∃ x ∈ nodes, p.1 = x.1.name) nodes ?_
        emptyInventory invp hfold ?_
      · intro x hx j j' hPj hok2
        obtain ⟨vars, gs', _, _, rfl⟩ := processNode_ok_parts ta j x j' hok2
        intro p hp
        rcases mem_dictSet j.hostvars x.1.name vars p hp with hp2 | hp2
        · exact hPj p hp2
        · rw [hp2]
          exact ⟨x, hx, rfl⟩
      · intro p hp
        cases hp
    exact hP

/-- Witness for C5 (amended) on an ordinary input. -/
theorem C5_witness :
    build_full_inventory
        [(⟨"n1", "dc1", [("lan", "10.0.0.0")], none⟩, [("web", ["x"])])] "lan"
      = .ok ⟨[("n1", [("ansible_host", .str "10.0.0.0"), ("datacenter", .str "dc1")])],
            [("all", ⟨[], ["dc1", "ungrouped", "web", "web_x"]⟩),
             ("ungrouped", ⟨[], []⟩),
             ("dc1", ⟨["n1"], []⟩),
             ("web", ⟨["n1"], ["web_x"]⟩),
             ("web_x", ⟨["n1"], []⟩)]⟩ ∧
    ((∀ key ∈ ([("all", (⟨[], ["dc1", "ungrouped", "web", "web_x"]⟩ : InvGroup)),
             ("ungrouped", ⟨[], []⟩),
             ("dc1", ⟨["n1"], []⟩),
             ("web", ⟨["n1"], ["web_x"]⟩),
             ("web_x", ⟨["n1"], []⟩)] : Dict InvGroup).map Prod.fst,
        sanitize key = key) ∧
     (∀ p ∈ ([("all", (⟨[], ["dc1", "ungrouped", "web", "web_x"]⟩ : InvGroup)),
             ("ungrouped", ⟨[], []⟩),
             ("dc1", ⟨["n1"], []⟩),
             ("web", ⟨["n1"], ["web_x"]⟩),
             ("web_x", ⟨["n1"], []⟩)] : Dict InvGroup), ∀ h ∈ p.2.hosts,
        ∃ x ∈ [((⟨"n1", "dc1", [("lan", "10.0.0.0")], none⟩ : Node),
                 ([("web", ["x"])] : Dict (List String)))], h = x.1.name) ∧
     (∀ p ∈ ([("all", (⟨[], ["dc1", "ungrouped", "web", "web_x"]⟩ : InvGroup)),
             ("ungrouped", ⟨[], []⟩),
             ("dc1", ⟨["n1"], []⟩),
             ("web", ⟨["n1"], ["web_x"]⟩),
             ("web_x", ⟨["n1"], []⟩)] : Dict InvGroup), p.1 ≠ "all" →
        ∀ c ∈ p.2.children,
        ∃ x ∈ [((⟨"n1", "dc1", [("lan", "10.0.0.0")], none⟩ : Node),
                 ([("web", ["x"])] : Dict (List String)))],
          ∃ svc ∈ x.2, ∃ tag ∈ svc.2, c = sanitize svc.1 ++ "_" ++ tag) ∧
     (∀ p ∈ ([("n1", [("ansible_host", PyVal.str "10.0.0.0"),
               ("datacenter", PyVal.str "dc1")])] : Dict (Dict PyVal)),
        ∃ x ∈ [((⟨"n1", "dc1", [("lan", "10.0.0.0")], none⟩ : Node),
                 ([("web", ["x"])] : Dict (List String)))], p.1 = x.1.name)) :=
  ⟨by decide,
   C5_sanitization_amended
     [(⟨"n1", "dc1", [("lan", "10.0.0.0")], none⟩, [("web", ["x"])])] "lan"
     ⟨[("n1", [("ansible_host", .str "10.0.0.0"), ("datacenter", .str "dc1")])],
      [("all", ⟨[], ["dc1", "ungrouped", "web", "web_x"]⟩),
       ("ungrouped", ⟨[], []⟩),
       ("dc1", ⟨["n1"], []⟩),
       ("web", ⟨["n1"], ["web_x"]⟩),
       ("web_x", ⟨["n1"], []⟩)]⟩
     (by decide)⟩

/-! ### Claim C10 -/

lemma foldlM_middle_congr {ε α β : Type} (f : β → α → Except ε β) (x y : α)
    (h : ∀ b, f b x = f b y) (l₁ l₂ : List α) (b : β) :
    (l₁ ++ x :: l₂).foldlM f b = (l₁ ++ y :: l₂).foldlM f b := by
  rw [List.foldlM_append, List.foldlM_append]
  have hfn : (fun a => (x :: l₂).foldlM f a) = fun a => (y :: l₂).foldlM f a := by
    funext a
    rw [List.foldlM_cons, List.foldlM_cons, h a]
  show (l₁.foldlM f b >>= fun a => (x :: l₂).foldlM f a)
    = (l₁.foldlM f b >>= fun a => (y :: l₂).foldlM f a)
  rw [hfn]

/-- C10: a node whose metadata mapping is absent or null is treated exactly
as if it were empty: `get_node_vars` gives just `ansible_host` and
`datacenter`, the whole build is unchanged (in particular no error is
introduced) when `none` is replaced by `{}`, and in a single-node build the
node joins only `all`/`ungrouped`/its datacenter group/service- and
tag-derived groups. -/
theorem C10_absent_meta (n : Node) (svcs : Dict (List String))
    (ns₁ ns₂ : List (Node × Dict (List String))) (ta : String)
    (hmeta : n.meta = none) :
    (get_node_vars n ta = get_node_vars {n with meta := some []} ta) ∧
    (∀ addr, dictGet? n.taggedAddresses ta = some addr →
      get_node_vars n ta
        = some [("ansible_host", .str addr), ("datacenter", .str n.datacenter)]) ∧
    (build_full_inventory (ns₁ ++ (n, svcs) :: ns₂) ta
      = build_full_inventory (ns₁ ++ ({n with meta := some []}, svcs) :: ns₂) ta) ∧
    (∀ inv, build_full_inventory [(n, svcs)] ta = .ok inv →
      ∀ key ∈ inv.groups.map Prod.fst,
        key = "all" ∨ key = "ungrouped" ∨ key = sanitize n.datacenter ∨
        ∃ svc ∈ svcs, key = sanitize svc.1 ∨
          ∃ tag ∈ svc.2, key = sanitize (sanitize svc.1 ++ "_" ++ tag)) := by
  obtain ⟨nm, dc, addrs, mm⟩ := n
  have hmeta' : mm = none := hmeta
  subst hmeta'
  refine ⟨rfl, ?_, ?_, ?_⟩
  · intro addr haddr
    exact get_node_vars_some _ ta addr haddr
  · unfold build_full_inventory
    rw [foldlM_middle_congr (processNode ta)
      ((⟨nm, dc, addrs, none⟩ : Node), svcs)
      ((⟨nm, dc, addrs, some []⟩ : Node), svcs)
      (fun b => rfl) ns₁ ns₂ emptyInventory]
  · intro inv hok key hkey
    obtain ⟨invp, hfold, rfl⟩ := build_ok_parts _ _ _ hok
    rw [finalize_keys] at hkey
    have hP : ∀ key ∈ invp.groups.map Prod.fst,
        key = "all" ∨ key = "ungrouped" ∨ key = sanitize dc ∨
        ∃ svc ∈ svcs, key = sanitize svc.1 ∨
          ∃ tag ∈ svc.2, key = sanitize (sanitize svc.1 ++ "_" ++ tag) := by
      refine buildFold_groups_preserve
        (fun gs => ∀ key ∈ gs.map Prod.fst,
          key = "all" ∨ key = "ungrouped" ∨ key = sanitize dc ∨
          ∃ svc ∈ svcs, key = sanitize svc.1 ∨
            ∃ tag ∈ svc.2, key = sanitize (sanitize svc.1 ++ "_" ++ tag))
        ta [((⟨nm, dc, addrs, none⟩ : Node), svcs)] ?_
        emptyInventory invp hfold ?_
      · intro x hx gs gs' hPgs hpn
        have hx2 : x = ((⟨nm, dc, addrs, none⟩ : Node), svcs) :=
          List.mem_singleton.1 hx
        subst hx2
        refine processNodeGroups_preserve
          (fun gs => ∀ key ∈ gs.map Prod.fst,
            key = "all" ∨ key = "ungrouped" ∨ key = sanitize dc ∨
            ∃ svc ∈ svcs, key = sanitize svc.1 ∨
              ∃ tag ∈ svc.2, key = sanitize (sanitize svc.1 ++ "_" ++ tag))
          _ ?_ ?_ gs gs' hpn hPgs
        · intro group hg gsa gsb hPa hab
          have hallow : sanitize group = "all" ∨ sanitize group = "ungrouped" ∨
              sanitize group = sanitize dc ∨
              ∃ svc ∈ svcs, sanitize group = sanitize svc.1 ∨
                ∃ tag ∈ svc.2,
                  sanitize group = sanitize (sanitize svc.1 ++ "_" ++ tag) := by
            rcases hg with rfl | ⟨kv, hkv, _⟩ | ⟨svc, hsvc, hcase⟩
            · exact Or.inr (Or.inr (Or.inl rfl))
            · cases hkv
            · rcases hcase with rfl | ⟨tag, htag, rfl⟩
              · exact Or.inr (Or.inr (Or.inr
                  ⟨svc, hsvc, Or.inl (sanitize_idem svc.1)⟩))
              · exact Or.inr (Or.inr (Or.inr
                  ⟨svc, hsvc, Or.inr ⟨tag, htag, rfl⟩⟩))
          rcases add_to_group_ok_keys gsa group _ gsb hab with hkeys | hkeys
          · rw [hkeys]
            exact hPa
          · rw [hkeys]
            intro key hkey
            rcases List.mem_append.1 hkey with hkey | hkey
            · exact hPa key hkey
            · rw [List.mem_singleton.1 hkey]
              exact hallow
        · intro svc _ tag _ gsa hPa
          rw [registerChild_keys]
          exact hPa
      · intro key hkey
        rcases List.mem_cons.1 hkey with rfl | hkey
        · exact Or.inl rfl
        · rw [List.mem_singleton.1 hkey]
          exact Or.inr (Or.inl rfl)
    exact hP key hkey

/-- Witness for C10 at a concrete node with absent metadata. -/
theorem C10_witness :
    (get_node_vars (⟨"n1", "dc1", [("lan", "10.0.0.0")], none⟩ : Node) "lan"
      = get_node_vars
          ({(⟨"n1", "dc1", [("lan", "10.0.0.0")], none⟩ : Node) with
            meta := some []}) "lan") ∧
    (∀ addr, dictGet?
        (Node.taggedAddresses ⟨"n1", "dc1", [("lan", "10.0.0.0")], none⟩) "lan"
        = some addr →
      get_node_vars (⟨"n1", "dc1", [("lan", "10.0.0.0")], none⟩ : Node) "lan"
        = some [("ansible_host", .str addr), ("datacenter", .str "dc1")]) ∧
    (build_full_inventory
        ([] ++ ((⟨"n1", "dc1", [("lan", "10.0.0.0")], none⟩ : Node),
          ([("web", ["x"])] : Dict (List String))) :: []) "lan"
      = build_full_inventory
        ([] ++ ({(⟨"n1", "dc1", [("lan", "10.0.0.0")], none⟩ : Node) with
            meta := some []},
          ([("web", ["x"])] : Dict (List String))) :: []) "lan") ∧
    (∀ inv, build_full_inventory
        [((⟨"n1", "dc1", [("lan", "10.0.0.0")], none⟩ : Node),
          ([("web", ["x"])] : Dict (List String)))] "lan" = .ok inv →
      ∀ key ∈ inv.groups.map Prod.fst,
        key = "all" ∨ key = "ungrouped" ∨ key = sanitize "dc1" ∨
        ∃ svc ∈ ([("web", ["x"])] : Dict (List String)),
          key = sanitize svc.1 ∨
          ∃ tag ∈ svc.2, key = sanitize (sanitize svc.1 ++ "_" ++ tag)) :=
  C10_absent_meta ⟨"n1", "dc1", [("lan", "10.0.0.0")], none⟩
    [("web", ["x"])] [] [] "lan" rfl
